import Mathlib

/-!
Verification development for the identifier-assignment and deduplication
core of the openalex-relational-parser repository.

The Python modules are shallowly embedded: pure functions become Lean
functions, mutable objects become explicit state records threaded through
calls, and raising becomes Except.error. Python strings are Lean Strings;
character-level work (csv delimiters, decimal rendering) happens on the
underlying List Char. Machine integers do not overflow in the modelled
code paths, so IDs are Int as in Python.
-/

namespace OAP

/-- Characters stripped by Python str.strip with no argument, restricted to
the ASCII whitespace set that occurs in this corpus. -/
def isPySpace (c : Char) : Bool :=
  c = ' ' || c = '\t' || c = '\n' || c = '\r' || c = '\x0b' || c = '\x0c'

/-- Model of Python str.strip with no argument: drop leading and trailing
whitespace characters. -/
def stripChars (cs : List Char) : List Char :=
  ((cs.dropWhile isPySpace).reverse.dropWhile isPySpace).reverse

/-- Python value.strip() on a string. -/
def pyStrip (s : String) : String :=
  String.mk (stripChars s.data)

/-- Ordered association lookup, the read side of a Python dict. The update
discipline below keeps keys unique, so first match equals dict lookup. -/
def assocFind {α β : Type} [DecidableEq α] (k : α) : List (α × β) → Option β
  | [] => none
  | p :: rest => if p.1 = k then some p.2 else assocFind k rest

/-- Python dict update d[k] = v: replaces the value in place when the key
exists (keeping its position), appends otherwise. -/
def pyUpd {α β : Type} [DecidableEq α] (l : List (α × β)) (k : α) (v : β) :
    List (α × β) :=
  if (assocFind k l).isSome then
    l.map (fun p => if p.1 = k then (k, v) else p)
  else l ++ [(k, v)]

/-- Python dict(zip(keys, cells)).get(k): with duplicate keys the last pair
wins, so the lookup runs over the reversed pairing. -/
def pyZipGet {α β : Type} [DecidableEq α] (k : α) (pairs : List (α × β)) :
    Option β :=
  assocFind k pairs.reverse

/-- Python set.add modelled on a duplicate-free list kept in arrival order. -/
def addValue {α : Type} [DecidableEq α] (l : List α) (v : α) : List α :=
  if v ∈ l then l else l ++ [v]

/-- State of identifiers.StableIdGenerator: precomputed per-namespace
assignments, whether a recorder callback was supplied at construction, and
the pairs the recorder has been invoked with. -/
structure GenState where
  assignments : List (String × List (String × Int))
  hasRecorder : Bool
  recorded : List (String × String)
deriving DecidableEq

namespace StableIdGenerator

/-- Embedding of identifiers.StableIdGenerator.generate (identifiers.py
lines 20-32). The bits argument is accepted but unused, as in the source.
An empty value raises; with a recorder present and no assignments the pair
is recorded and 0 returned; otherwise the result is a pure lookup in the
precomputed assignments, raising KeyError (modelled as Except.error) for an
unknown namespace or value. -/
def generate (s : GenState) (ns v : String) (bits : Nat) :
    Except String (Int × GenState) :=
  if v = "" then Except.error "value must be a non-empty string"
  else if s.hasRecorder = true ∧ s.assignments = [] then
    Except.ok (0, { s with recorded := s.recorded ++ [(ns, v)] })
  else
    match assocFind ns s.assignments with
    | none => Except.error "No assignments available for namespace"
    | some m =>
      match assocFind v m with
      | none => Except.error "Value missing from namespace assignments"
      | some i => Except.ok (i, s)

end StableIdGenerator

/-- C2 counterexample. A generator built with a recorder and no assignments
(the configuration the repository uses during the collection pass) returns
the sentinel 0 from generate("scopus_author", "12345", bits := 63), and a
second identical call returns 0 again: the two calls agree but the result
is zero, refuting the claim that generate always returns a positive
integer that is never zero. The bits argument plays no role. -/
theorem C2_generate_returns_zero_counterexample :
    StableIdGenerator.generate ⟨[], true, []⟩ "scopus_author" "12345" 63 =
      Except.ok (0, ⟨[], true, [("scopus_author", "12345")]⟩) ∧
    StableIdGenerator.generate ⟨[], true, [("scopus_author", "12345")]⟩
        "scopus_author" "12345" 63 =
      Except.ok (0, ⟨[], true,
        [("scopus_author", "12345"), ("scopus_author", "12345")]⟩) ∧
    ¬ (0 : Int) > 0 := by
  exact ⟨rfl, rfl, by decide⟩

/-- C2 amended. generate is deterministic for a (namespace, value) pair
within one process lifetime: whenever a call succeeds with integer i, an
immediately repeated call with the same pair succeeds with the same i.
However the result is not always positive: in recorder mode (a recorder
present, no assignments) the returned integer is exactly the sentinel 0. -/
theorem C2_generate_deterministic (s : GenState) (ns v : String) (bits : Nat)
    (i : Int) (s' : GenState)
    (h : StableIdGenerator.generate s ns v bits = Except.ok (i, s')) :
    (∃ s'', StableIdGenerator.generate s' ns v bits = Except.ok (i, s'')) ∧
      (s.hasRecorder = true → s.assignments = [] → i = 0) := by
  unfold StableIdGenerator.generate at h
  by_cases hv : v = ""
  · simp [hv] at h
  · rw [if_neg hv] at h
    by_cases hr : s.hasRecorder = true ∧ s.assignments = []
    · rw [if_pos hr] at h
      have h2 : i = 0 ∧ s' = { s with recorded := s.recorded ++ [(ns, v)] } := by
        have := h
        simp only [Except.ok.injEq, Prod.mk.injEq] at this
        exact ⟨this.1.symm, this.2.symm⟩
      obtain ⟨hi, hs⟩ := h2
      constructor
      · refine ⟨{ s with recorded := s.recorded ++ [(ns, v)] ++ [(ns, v)] }, ?_⟩
        unfold StableIdGenerator.generate
        rw [if_neg hv]
        have hr' : s'.hasRecorder = true ∧ s'.assignments = [] := by
          rw [hs]; exact hr
        rw [if_pos hr']
        subst hs hi
        simp
      · intro _ _; exact hi
    · rw [if_neg hr] at h
      cases hfind : assocFind ns s.assignments with
      | none => simp [hfind] at h
      | some m =>
        simp only [hfind] at h
        cases hval : assocFind v m with
        | none => simp [hval] at h
        | some j =>
          simp only [hval, Except.ok.injEq, Prod.mk.injEq] at h
          obtain ⟨hi, hs⟩ := h
          subst hi
          cases hs
          constructor
          · refine ⟨s, ?_⟩
            unfold StableIdGenerator.generate
            rw [if_neg hv, if_neg hr]
            simp only [hfind, hval]
          · intro ha hb; exact absurd ⟨ha, hb⟩ hr

/-- C2 witness: the deterministic-repeat theorem applied at the concrete
recorder-mode call of the claim. -/
theorem C2_generate_deterministic_witness :
    (∃ s'', StableIdGenerator.generate ⟨[], true, [("scopus_author", "12345")]⟩
        "scopus_author" "12345" 63 = Except.ok (0, s'')) ∧
      ((⟨[], true, []⟩ : GenState).hasRecorder = true →
        (⟨[], true, []⟩ : GenState).assignments = [] → (0 : Int) = 0) :=
  C2_generate_deterministic ⟨[], true, []⟩ "scopus_author" "12345" 63 0
    ⟨[], true, [("scopus_author", "12345")]⟩ rfl

/-- Python scalar values occurring in emitted rows: enumeration IDs and
strings. A field explicitly holding Python None is modelled by the Option
layer of Row, so PyVal itself is never None. -/
inductive PyVal where
  | int (i : Int) : PyVal
  | str (s : String) : PyVal
deriving DecidableEq

/-- A row dictionary: field name to value, where the value slot mirrors
Python in that a stored None and a missing field both read back as None
through row.get. -/
abbrev Row := List (String × Option PyVal)

/-- Python row.get(field): none when the field is missing or the stored
value is None. -/
def rowGet (row : Row) (f : String) : Option PyVal :=
  (assocFind f row).getD none

/-- Embedding of emitter._build_key (emitter.py lines 13-14): the tuple of
row.get(field) over the declared key fields. -/
def build_key (row : Row) (fields : List String) : List (Option PyVal) :=
  fields.map (rowGet row)

/-- State of emitter.TableEmitter: the per-table dedup key configuration,
the per-table set of seen keys, and the rows written so far to the
underlying CsvWriterManager sink (modelled as an append-only list). -/
structure TableEmitterState where
  dedupe_keys : List (String × List String)
  seen : List (String × List (List (Option PyVal)))
  sink : List (String × Row)

namespace TableEmitter

/-- Seen-key set for a table (defaultdict(set), modelled as a list in
insertion order). -/
def seenFor (st : TableEmitterState) (table : String) : List (List (Option PyVal)) :=
  (assocFind table st.seen).getD []

/-- Embedding of TableEmitter.emit (emitter.py lines 25-34). A table whose
configured key-field list is missing or empty is written unconditionally
(Python truthiness of key_fields); otherwise a key containing an absent
value raises, an already-seen key is silently dropped, and a new key is
remembered and the row written. -/
def emit (st : TableEmitterState) (table : String) (row : Row) :
    Except String TableEmitterState :=
  match assocFind table st.dedupe_keys with
  | some (f0 :: fs) =>
    let key := build_key row (f0 :: fs)
    if none ∈ key then Except.error "Missing key value for table"
    else if key ∈ seenFor st table then Except.ok st
    else Except.ok { st with
      seen := pyUpd st.seen table (addValue (seenFor st table) key),
      sink := st.sink ++ [(table, row)] }
  | _ => Except.ok { st with sink := st.sink ++ [(table, row)] }

end TableEmitter

/-- Lookup of a key just inserted by pyUpd. -/
theorem assocFind_pyUpd_self {α β : Type} [DecidableEq α]
    (l : List (α × β)) (k : α) (v : β) : assocFind k (pyUpd l k v) = some v := by
  unfold pyUpd
  by_cases hk : (assocFind k l).isSome
  · rw [if_pos hk]
    induction l with
    | nil => simp [assocFind] at hk
    | cons p rest ih =>
      by_cases hp : p.1 = k
      · simp [assocFind, hp]
      · simp only [assocFind, hp, if_neg, if_false] at hk
        simpa [assocFind, hp] using ih hk
  · rw [if_neg hk]
    induction l with
    | nil => simp [assocFind]
    | cons p rest ih =>
      by_cases hp : p.1 = k
      · simp [assocFind, hp] at hk
      · simp only [assocFind, hp, if_neg, if_false] at hk
        simpa [assocFind, hp] using ih hk

/-- C6: dedup idempotence of TableEmitter.emit. For a table with a
configured non-empty dedup key list, when two rows agree on every key
field, no key field is absent, and the key has not been seen, the first
emit writes exactly one row to the sink and the second emit returns with
the state unchanged: a silent no-op, exactly one written row. -/
theorem C6_emit_dedup_idempotent (st : TableEmitterState) (t : String)
    (r1 r2 : Row) (kf : List String)
    (hcfg : assocFind t st.dedupe_keys = some kf) (hne : kf ≠ [])
    (hkeys : build_key r1 kf = build_key r2 kf)
    (hnone : none ∉ build_key r1 kf)
    (hseen : build_key r1 kf ∉ TableEmitter.seenFor st t) :
    ∃ st1, TableEmitter.emit st t r1 = Except.ok st1 ∧
      TableEmitter.emit st1 t r2 = Except.ok st1 ∧
      st1.sink = st.sink ++ [(t, r1)] := by
  obtain ⟨f0, fs, rfl⟩ : ∃ f0 fs, kf = f0 :: fs := by
    cases kf with
    | nil => exact absurd rfl hne
    | cons a b => exact ⟨a, b, rfl⟩
  refine ⟨{ st with
      seen := pyUpd st.seen t (addValue (TableEmitter.seenFor st t) (build_key r1 (f0 :: fs))),
      sink := st.sink ++ [(t, r1)] }, ?_, ?_, rfl⟩
  · unfold TableEmitter.emit
    rw [hcfg]
    simp only [if_neg hnone, if_neg hseen]
  · unfold TableEmitter.emit
    rw [show assocFind t ({ st with
        seen := pyUpd st.seen t (addValue (TableEmitter.seenFor st t) (build_key r1 (f0 :: fs))),
        sink := st.sink ++ [(t, r1)] } : TableEmitterState).dedupe_keys =
        some (f0 :: fs) from hcfg]
    have hseen2 : TableEmitter.seenFor { st with
        seen := pyUpd st.seen t (addValue (TableEmitter.seenFor st t) (build_key r1 (f0 :: fs))),
        sink := st.sink ++ [(t, r1)] } t =
        addValue (TableEmitter.seenFor st t) (build_key r1 (f0 :: fs)) := by
      unfold TableEmitter.seenFor
      simp [assocFind_pyUpd_self]
    have hmem : build_key r2 (f0 :: fs) ∈
        addValue (TableEmitter.seenFor st t) (build_key r1 (f0 :: fs)) := by
      rw [← hkeys]
      unfold addValue
      rw [if_neg hseen]
      simp
    have hmem1 : build_key r1 (f0 :: fs) ∈
        addValue (TableEmitter.seenFor st t) (build_key r1 (f0 :: fs)) := by
      unfold addValue
      rw [if_neg hseen]
      simp
    simp only [hseen2, ← hkeys, if_neg hnone, hmem1, if_pos]

/-- C6 witness: a dimension table keyed on field id; two rows with the same
id but different names; the second emit is a no-op. -/
theorem C6_emit_dedup_idempotent_witness :
    ∃ st1, TableEmitter.emit ⟨[("dim", ["id"])], [], []⟩ "dim"
        [("id", some (PyVal.int 1)), ("name", some (PyVal.str "a"))] = Except.ok st1 ∧
      TableEmitter.emit st1 "dim"
        [("id", some (PyVal.int 1)), ("name", some (PyVal.str "b"))] = Except.ok st1 ∧
      st1.sink = ([] : List (String × Row)) ++
        [("dim", [("id", some (PyVal.int 1)), ("name", some (PyVal.str "a"))])] :=
  C6_emit_dedup_idempotent ⟨[("dim", ["id"])], [], []⟩ "dim"
    [("id", some (PyVal.int 1)), ("name", some (PyVal.str "a"))]
    [("id", some (PyVal.int 1)), ("name", some (PyVal.str "b"))]
    ["id"] rfl (by decide) rfl (by decide) (by decide)

/-- C7: emit raises (rather than writing) when a configured dedup key field
has an absent value in the row, for every table whose configured key list
is non-empty. -/
theorem C7_emit_raises_on_absent_key (st : TableEmitterState) (t : String)
    (row : Row) (kf : List String)
    (hcfg : assocFind t st.dedupe_keys = some kf) (hne : kf ≠ [])
    (habsent : none ∈ build_key row kf) :
    TableEmitter.emit st t row = Except.error "Missing key value for table" := by
  obtain ⟨f0, fs, rfl⟩ : ∃ f0 fs, kf = f0 :: fs := by
    cases kf with
    | nil => exact absurd rfl hne
    | cons a b => exact ⟨a, b, rfl⟩
  unfold TableEmitter.emit
  rw [hcfg]
  simp only [if_pos habsent]

/-- C7 witness: the key field id is missing from the row, so emit fails
instead of writing. -/
theorem C7_emit_raises_on_absent_key_witness :
    TableEmitter.emit ⟨[("dim", ["id"])], [], []⟩ "dim"
      [("name", some (PyVal.str "a"))] = Except.error "Missing key value for table" :=
  C7_emit_raises_on_absent_key ⟨[("dim", ["id"])], [], []⟩ "dim"
    [("name", some (PyVal.str "a"))] ["id"] rfl (by decide) (by decide)

/-- Lexicographic strict comparison of character lists by code point, the
order Python uses on strings. -/
def listLtCh : List Char → List Char → Bool
  | [], [] => false
  | [], _ :: _ => true
  | _ :: _, [] => false
  | a :: as, b :: bs => if a < b then true else if b < a then false else listLtCh as bs

/-- Nothing is below the empty list. -/
theorem listLtCh_nil_right : ∀ l, listLtCh l [] = false
  | [] => rfl
  | _ :: _ => rfl

/-- Strict comparison is irreflexive. -/
theorem listLtCh_irrefl : ∀ l, listLtCh l l = false
  | [] => rfl
  | a :: as => by
    simp only [listLtCh, lt_irrefl a, if_false, listLtCh_irrefl as]

/-- Strict comparison is asymmetric. -/
theorem listLtCh_asymm : ∀ l1 l2, listLtCh l1 l2 = true → listLtCh l2 l1 = false
  | [], [] => by intro h; cases h
  | [], _ :: _ => by intro _; rfl
  | _ :: _, [] => by intro h; cases h
  | a :: as, b :: bs => by
    intro h
    simp only [listLtCh] at h ⊢
    by_cases hab : a < b
    · rw [if_neg (lt_asymm hab), if_pos hab]
    · rw [if_neg hab] at h
      by_cases hba : b < a
      · rw [if_pos hba] at h; cases h
      · rw [if_neg hba] at h
        rw [if_neg hba, if_neg hab]
        exact listLtCh_asymm as bs h

/-- Two lists neither of which is strictly below the other are equal. -/
theorem listLtCh_antisymm : ∀ l1 l2, listLtCh l1 l2 = false →
    listLtCh l2 l1 = false → l1 = l2
  | [], [] => by intro _ _; rfl
  | [], _ :: _ => by intro h _; cases h
  | _ :: _, [] => by intro _ h; cases h
  | a :: as, b :: bs => by
    intro h1 h2
    simp only [listLtCh] at h1 h2
    by_cases hab : a < b
    · rw [if_pos hab] at h1; cases h1
    · by_cases hba : b < a
      · rw [if_pos hba] at h2; cases h2
      · rw [if_neg hab, if_neg hba] at h1
        rw [if_neg hba, if_neg hab] at h2
        have hc : a = b := le_antisymm (not_lt.mp hba) (not_lt.mp hab)
        rw [hc, listLtCh_antisymm as bs h1 h2]

/-- Strict comparison is transitive. -/
theorem listLtCh_trans : ∀ l1 l2 l3, listLtCh l1 l2 = true →
    listLtCh l2 l3 = true → listLtCh l1 l3 = true
  | _, l2, [] => by
    intro _ h2
    rw [listLtCh_nil_right l2] at h2
    cases h2
  | [], _, _ :: _ => by intro _ _; rfl
  | a :: as, [], _ :: _ => by
    intro h1 _
    rw [listLtCh_nil_right] at h1
    cases h1
  | a :: as, b :: bs, c :: cs => by
    intro h1 h2
    simp only [listLtCh] at h1 h2 ⊢
    by_cases hab : a < b
    · by_cases hbc : b < c
      · rw [if_pos (lt_trans hab hbc)]
      · by_cases hcb : c < b
        · rw [if_neg hbc, if_pos hcb] at h2; cases h2
        · have hc : b = c := le_antisymm (not_lt.mp hcb) (not_lt.mp hbc)
          rw [if_pos (hc ▸ hab)]
    · by_cases hba : b < a
      · rw [if_neg hab, if_pos hba] at h1; cases h1
      · have hc : a = b := le_antisymm (not_lt.mp hba) (not_lt.mp hab)
        rw [if_neg hab, if_neg hba] at h1
        by_cases hbc : b < c
        · rw [if_pos (hc ▸ hbc)]
        · by_cases hcb : c < b
          · rw [if_neg hbc, if_pos hcb] at h2; cases h2
          · rw [if_neg hbc, if_neg hcb] at h2
            have hc2 : b = c := le_antisymm (not_lt.mp hcb) (not_lt.mp hbc)
            rw [hc, hc2, if_neg (lt_irrefl c), if_neg (lt_irrefl c)]
            exact listLtCh_trans as bs cs h1 h2

/-- Python strict string comparison (code-point lexicographic). -/
def strLtB (a b : String) : Bool := listLtCh a.data b.data

theorem strLtB_asymm (a b : String) (h : strLtB a b = true) : strLtB b a = false :=
  listLtCh_asymm a.data b.data h

theorem strLtB_trans (a b c : String) (h1 : strLtB a b = true)
    (h2 : strLtB b c = true) : strLtB a c = true :=
  listLtCh_trans a.data b.data c.data h1 h2

theorem strLtB_antisymm (a b : String) (h1 : strLtB a b = false)
    (h2 : strLtB b a = false) : a = b :=
  String.ext (listLtCh_antisymm a.data b.data h1 h2)

/-- Model of Python str.casefold restricted to the ASCII values this corpus
holds, where casefold agrees with per-character lowercasing. -/
def caseFold (s : String) : String := String.mk (s.data.map Char.toLower)

/-- Boolean total order on the sort key (text.casefold(), text) used by
IdCatalog._assign: compare casefolded text first, the original text as the
tiebreak. -/
def keyLeB (a b : String) : Bool :=
  if caseFold a = caseFold b then !(strLtB b a) else strLtB (caseFold a) (caseFold b)

/-- Propositional form of the _assign sort-key order. -/
def rKey (a b : String) : Prop := keyLeB a b = true

instance : DecidableRel rKey :=
  fun a b => inferInstanceAs (Decidable (keyLeB a b = true))

instance : IsTotal String rKey := by
  constructor
  intro a b
  unfold rKey keyLeB
  by_cases hcf : caseFold a = caseFold b
  · rw [if_pos hcf, if_pos hcf.symm]
    by_cases hba : strLtB b a = true
    · right
      rw [strLtB_asymm b a hba]
      rfl
    · left
      rw [Bool.not_eq_true] at hba
      rw [hba]
      rfl
  · rw [if_neg hcf, if_neg (fun hx => hcf hx.symm)]
    by_cases h1 : strLtB (caseFold a) (caseFold b) = true
    · exact Or.inl h1
    · right
      rw [Bool.not_eq_true] at h1
      by_cases h2 : strLtB (caseFold b) (caseFold a) = true
      · exact h2
      · rw [Bool.not_eq_true] at h2
        exact absurd (strLtB_antisymm _ _ h1 h2) hcf

instance : IsAntisymm String rKey := by
  constructor
  intro a b h1 h2
  unfold rKey keyLeB at h1 h2
  by_cases hcf : caseFold a = caseFold b
  · rw [if_pos hcf] at h1
    rw [if_pos hcf.symm] at h2
    rw [Bool.not_eq_true'] at h1 h2
    exact strLtB_antisymm a b h2 h1
  · rw [if_neg hcf] at h1
    rw [if_neg (fun hx => hcf hx.symm)] at h2
    have := strLtB_asymm _ _ h1
    rw [this] at h2
    cases h2

instance : IsTrans String rKey := by
  constructor
  intro a b c h1 h2
  unfold rKey keyLeB at h1 h2 ⊢
  by_cases hab : caseFold a = caseFold b
  · by_cases hbc : caseFold b = caseFold c
    · rw [if_pos hab] at h1
      rw [if_pos hbc] at h2
      rw [if_pos (hab.trans hbc)]
      rw [Bool.not_eq_true'] at h1 h2
      rw [Bool.not_eq_true']
      by_cases hca : strLtB c a = true
      · by_cases hcab : strLtB a b = true
        · have := strLtB_trans c a b hca hcab
          rw [this] at h2; cases h2
        · rw [Bool.not_eq_true] at hcab
          have hc : b = a := strLtB_antisymm b a h1 hcab
          rw [hc] at h2
          rw [h2] at hca
          cases hca
      · rw [Bool.not_eq_true] at hca
        exact hca
    · rw [if_pos hab] at h1
      rw [if_neg hbc] at h2
      have hac : ¬ caseFold a = caseFold c := fun hx => hbc (hab.symm.trans hx)
      rw [if_neg hac, hab]
      exact h2
  · by_cases hbc : caseFold b = caseFold c
    · rw [if_neg hab] at h1
      have hac : ¬ caseFold a = caseFold c := fun hx => hab (hx.trans hbc.symm)
      rw [if_neg hac, ← hbc]
      exact h1
    · rw [if_neg hab] at h1
      rw [if_neg hbc] at h2
      have hlt := strLtB_trans _ _ _ h1 h2
      have hac : ¬ caseFold a = caseFold c := by
        intro hx
        rw [hx] at h1
        have := strLtB_asymm _ _ h2
        rw [this] at h1
        cases h1
      rw [if_neg hac]
      exact hlt

/-- Embedding of reference.EnumerationConfig (reference.py lines 13-20). -/
structure EnumerationConfig where
  table : String
  id_column : String
  value_column : String
  bits : Nat
  reference_filename : Option String := none
  normalise : Option (String → String) := none

/-- Embedding of id_catalog.NamespaceConfig (id_catalog.py lines 13-20);
nspace stands for the Python field namespace, a Lean keyword. -/
structure NamespaceConfig where
  nspace : String
  filename : String
  id_column : String
  value_column : String
deriving DecidableEq

/-- State of id_catalog.IdCatalog: the config dicts built by the
constructor, the per-table and per-namespace distinct-value sets (kept as
duplicate-free lists in arrival order), and the assignment dicts filled by
finalize or load_existing. -/
structure IdCatalogState where
  enumConfigs : List (String × EnumerationConfig)
  namespaceConfigs : List (String × NamespaceConfig)
  enumValues : List (String × List String)
  namespaceValues : List (String × List String)
  enumAssignments : List (String × List (String × Int))
  namespaceAssignments : List (String × List (String × Int))

namespace IdCatalog

/-- Embedding of IdCatalog.__init__ (id_catalog.py lines 26-38): the config
dicts are keyed by table and namespace with Python dict-comprehension
semantics (a repeated key keeps the last config). -/
def init (ecs : List EnumerationConfig) (ncs : List NamespaceConfig) :
    IdCatalogState :=
  { enumConfigs := ecs.foldl (fun m c => pyUpd m c.table c) [],
    namespaceConfigs := ncs.foldl (fun m c => pyUpd m c.nspace c) [],
    enumValues := [], namespaceValues := [],
    enumAssignments := [], namespaceAssignments := [] }

/-- Embedding of IdCatalog.record_enum (id_catalog.py lines 40-42): a falsy
(empty) value is ignored, otherwise it is added to the defaultdict set for
the table. -/
def record_enum (st : IdCatalogState) (table value : String) : IdCatalogState :=
  if value = "" then st
  else { st with
    enumValues := pyUpd st.enumValues table
      (addValue ((assocFind table st.enumValues).getD []) value) }

/-- Embedding of IdCatalog.record_namespace (id_catalog.py lines 44-46). -/
def record_namespace (st : IdCatalogState) (nspace value : String) : IdCatalogState :=
  if value = "" then st
  else { st with
    namespaceValues := pyUpd st.namespaceValues nspace
      (addValue ((assocFind nspace st.namespaceValues).getD []) value) }

/-- Embedding of IdCatalog._assign (id_catalog.py lines 100-103): sort the
distinct values by the key (text.casefold(), text) and enumerate from 1.
Python sorted is modelled by insertion sort; rKey is total and
antisymmetric, so any correct sorting algorithm yields this exact list. -/
def assign (values : List String) : List (String × Int) :=
  ((List.insertionSort rKey values).enumFrom 1).map (fun p => (p.2, (p.1 : Int)))

/-- Sequence of record_enum calls for one table, in the given order. -/
def recordEnumSeq (st : IdCatalogState) (table : String) (vs : List String) :
    IdCatalogState :=
  vs.foldl (fun s v => record_enum s table v) st

/-- Distinct-value list currently held for a table. -/
def valuesFor (st : IdCatalogState) (table : String) : List String :=
  (assocFind table st.enumValues).getD []

end IdCatalog

/-- Guarded set insertion: the effect of one record_enum call on the value
set of its table. -/
def addGuard (l : List String) (v : String) : List String :=
  if v = "" then l else addValue l v

/-- Membership in addValue. -/
theorem addValue_mem {α : Type} [DecidableEq α] (l : List α) (v x : α) :
    x ∈ addValue l v ↔ x ∈ l ∨ x = v := by
  unfold addValue
  by_cases h : v ∈ l
  · rw [if_pos h]
    constructor
    · exact Or.inl
    · rintro (hx | rfl)
      · exact hx
      · exact h
  · rw [if_neg h]
    simp

/-- addValue preserves duplicate-freeness. -/
theorem addValue_nodup {α : Type} [DecidableEq α] (l : List α) (v : α)
    (h : l.Nodup) : (addValue l v).Nodup := by
  unfold addValue
  by_cases hv : v ∈ l
  · rwa [if_pos hv]
  · rw [if_neg hv]
    exact List.Nodup.append h (List.nodup_singleton v) (by simpa using hv)

/-- One record_enum call changes exactly the value set of its table,
through addGuard. -/
theorem record_enum_valuesFor (st : IdCatalogState) (table v : String) :
    IdCatalog.valuesFor (IdCatalog.record_enum st table v) table =
      addGuard (IdCatalog.valuesFor st table) v := by
  unfold IdCatalog.record_enum addGuard
  by_cases hv : v = ""
  · rw [if_pos hv, if_pos hv]
  · rw [if_neg hv, if_neg hv]
    unfold IdCatalog.valuesFor
    simp [assocFind_pyUpd_self]

/-- The fold of record_enum calls equals the fold of addGuard on the value
set of that table. -/
theorem recordEnumSeq_valuesFor (table : String) :
    ∀ (vs : List String) (st : IdCatalogState),
    IdCatalog.valuesFor (IdCatalog.recordEnumSeq st table vs) table =
      vs.foldl addGuard (IdCatalog.valuesFor st table)
  | [], st => rfl
  | v :: vs, st => by
    unfold IdCatalog.recordEnumSeq
    simp only [List.foldl_cons]
    rw [show (List.foldl (fun s v => IdCatalog.record_enum s table v)
        (IdCatalog.record_enum st table v) vs) =
        IdCatalog.recordEnumSeq (IdCatalog.record_enum st table v) table vs from rfl]
    rw [recordEnumSeq_valuesFor table vs, record_enum_valuesFor]

/-- Membership after a fold of guarded insertions. -/
theorem foldl_addGuard_mem (vs : List String) :
    ∀ (l : List String) (x : String),
    x ∈ vs.foldl addGuard l ↔ x ∈ l ∨ (x ∈ vs ∧ x ≠ "") := by
  induction vs with
  | nil => simp
  | cons v vs ih =>
    intro l x
    simp only [List.foldl_cons, ih]
    unfold addGuard
    by_cases hv : v = ""
    · subst hv
      rw [if_pos rfl]
      constructor
      · rintro (hx | hx)
        · exact Or.inl hx
        · exact Or.inr ⟨List.mem_cons_of_mem _ hx.1, hx.2⟩
      · rintro (hx | ⟨hx1, hx2⟩)
        · exact Or.inl hx
        · rcases List.mem_cons.mp hx1 with rfl | hmem
          · exact absurd rfl hx2
          · exact Or.inr ⟨hmem, hx2⟩
    · rw [if_neg hv]
      rw [addValue_mem l v x]
      constructor
      · rintro ((hx | rfl) | hx)
        · exact Or.inl hx
        · exact Or.inr ⟨List.mem_cons_self _ _, hv⟩
        · exact Or.inr ⟨List.mem_cons_of_mem _ hx.1, hx.2⟩
      · rintro (hx | ⟨hx1, hx2⟩)
        · exact Or.inl (Or.inl hx)
        · rcases List.mem_cons.mp hx1 with rfl | hmem
          · exact Or.inl (Or.inr rfl)
          · exact Or.inr ⟨hmem, hx2⟩

/-- Duplicate-freeness after a fold of guarded insertions. -/
theorem foldl_addGuard_nodup (vs : List String) :
    ∀ (l : List String), l.Nodup → (vs.foldl addGuard l).Nodup := by
  induction vs with
  | nil => exact fun l h => h
  | cons v vs ih =>
    intro l h
    simp only [List.foldl_cons]
    apply ih
    unfold addGuard
    by_cases hv : v = ""
    · rwa [if_pos hv]
    · rw [if_neg hv]
      exact addValue_nodup l v h

/-- C3: determinism of catalog assignment. Recording the same values into
one table in any two orders (with any multiplicities) yields the identical
value-to-ID assignment from the finalize-time _assign, and the assigned
IDs are exactly 1..N in the canonical case-insensitive order with the
original string as tiebreak. -/
theorem C3_assign_order_independent (st : IdCatalogState) (table : String)
    (v1 v2 : List String) (hperm : v1.Perm v2)
    (h0 : assocFind table st.enumValues = none) :
    IdCatalog.assign (IdCatalog.valuesFor (IdCatalog.recordEnumSeq st table v1) table) =
      IdCatalog.assign (IdCatalog.valuesFor (IdCatalog.recordEnumSeq st table v2) table) ∧
    (IdCatalog.assign (IdCatalog.valuesFor (IdCatalog.recordEnumSeq st table v1) table)).map
        Prod.snd =
      (List.range' 1
        (IdCatalog.valuesFor (IdCatalog.recordEnumSeq st table v1) table).length).map
        Int.ofNat := by
  have hbase : IdCatalog.valuesFor st table = [] := by
    unfold IdCatalog.valuesFor
    rw [h0]
    rfl
  have hv1 : IdCatalog.valuesFor (IdCatalog.recordEnumSeq st table v1) table =
      v1.foldl addGuard [] := by
    rw [recordEnumSeq_valuesFor, hbase]
  have hv2 : IdCatalog.valuesFor (IdCatalog.recordEnumSeq st table v2) table =
      v2.foldl addGuard [] := by
    rw [recordEnumSeq_valuesFor, hbase]
  have hnd1 : (v1.foldl addGuard []).Nodup := foldl_addGuard_nodup v1 [] List.nodup_nil
  have hnd2 : (v2.foldl addGuard []).Nodup := foldl_addGuard_nodup v2 [] List.nodup_nil
  have hsperm : (v1.foldl addGuard []).Perm (v2.foldl addGuard []) := by
    apply List.perm_of_nodup_nodup_toFinset_eq hnd1 hnd2
    apply Finset.ext
    intro x
    simp only [List.mem_toFinset, foldl_addGuard_mem, List.not_mem_nil, false_or]
    rw [hperm.mem_iff]
  have hsorteq : List.insertionSort rKey (v1.foldl addGuard []) =
      List.insertionSort rKey (v2.foldl addGuard []) := by
    apply List.eq_of_perm_of_sorted
      (((List.perm_insertionSort rKey _).trans hsperm).trans
        (List.perm_insertionSort rKey _).symm)
      (List.sorted_insertionSort rKey _) (List.sorted_insertionSort rKey _)
  constructor
  · rw [hv1, hv2]
    unfold IdCatalog.assign
    rw [hsorteq]
  · rw [hv1]
    unfold IdCatalog.assign
    rw [List.map_map]
    have hcomp : (Prod.snd ∘ fun p : Nat × String => (p.2, (p.1 : Int))) =
        Int.ofNat ∘ Prod.fst := rfl
    rw [hcomp, ← List.map_map, List.enumFrom_map_fst]
    rw [(List.perm_insertionSort rKey (v1.foldl addGuard [])).length_eq]

/-- C3 witness: the values US, FR recorded in two different orders with a
repeat produce the identical assignment. -/
theorem C3_assign_order_independent_witness :
    IdCatalog.assign (IdCatalog.valuesFor
        (IdCatalog.recordEnumSeq (IdCatalog.init [] []) "country" ["US", "FR", "US"])
        "country") =
      IdCatalog.assign (IdCatalog.valuesFor
        (IdCatalog.recordEnumSeq (IdCatalog.init [] []) "country" ["FR", "US", "US"])
        "country") :=
  (C3_assign_order_independent (IdCatalog.init [] []) "country"
    ["US", "FR", "US"] ["FR", "US", "US"] (by decide) rfl).1

/-- Decimal digit character for n below 10. -/
def digitChar (n : Nat) : Char := Char.ofNat (48 + n)

/-- Fuel-based decimal rendering of a natural number, most significant
digit first; fuel n + 1 always suffices. Structural recursion on the fuel
keeps kernel evaluation possible. -/
def natReprAux : Nat → Nat → List Char
  | 0, _ => []
  | fuel + 1, n =>
    if n < 10 then [digitChar n]
    else natReprAux fuel (n / 10) ++ [digitChar (n % 10)]

/-- Canonical decimal rendering of a natural number. -/
def natReprL (n : Nat) : List Char := natReprAux (n + 1) n

/-- Model of Python str() on an int: canonical decimal, minus sign for
negatives (the modelled writer only ever renders IDs 1..N). -/
def intReprL (i : Int) : List Char :=
  if i < 0 then '-' :: natReprL (-i).toNat else natReprL i.toNat

/-- Numeric value of a decimal digit character. -/
def digitVal (c : Char) : Option Nat :=
  if '0' ≤ c ∧ c ≤ '9' then some (c.toNat - 48) else none

/-- Accumulating decimal parse; none on the first non-digit. -/
def parseDigitsAux : Nat → List Char → Option Nat
  | acc, [] => some acc
  | acc, c :: cs =>
    match digitVal c with
    | none => none
    | some d => parseDigitsAux (acc * 10 + d) cs

/-- Decimal parse of a non-empty all-digit character list. -/
def parseDigits : List Char → Option Nat
  | [] => none
  | c :: cs => parseDigitsAux 0 (c :: cs)

/-- Model of Python int(text) on the csv cell texts that occur here: an
optional minus sign followed by decimal digits (surrounding whitespace and
underscores do not occur in the modelled files). -/
def pyIntL (cs : List Char) : Option Int :=
  match cs with
  | [] => none
  | c :: rest =>
    if c = '-' then (parseDigits rest).map (fun n => -(n : Int))
    else (parseDigits (c :: rest)).map (fun n => (n : Int))

/-- Reading back the digit character of a small value. -/
theorem digitVal_digitChar (n : Nat) (h : n < 10) :
    digitVal (digitChar n) = some n := by
  interval_cases n <;> decide

/-- Splitting a parse at the last character. -/
theorem parseDigitsAux_append : ∀ (xs : List Char) (acc : Nat) (c : Char),
    parseDigitsAux acc (xs ++ [c]) =
      match parseDigitsAux acc xs, digitVal c with
      | some m, some d => some (m * 10 + d)
      | _, _ => none
  | [], acc, c => by
    simp only [List.nil_append, parseDigitsAux]
    cases hd : digitVal c with
    | none => rfl
    | some d => rfl
  | x :: xs, acc, c => by
    simp only [List.cons_append, parseDigitsAux]
    cases hx : digitVal x with
    | none => rfl
    | some d => exact parseDigitsAux_append xs (acc * 10 + d) c

/-- Parsing the rendered digits of n yields the accumulator shifted by the
digit count plus n. -/
theorem parseDigitsAux_natReprAux : ∀ (fuel n acc : Nat), n < fuel →
    parseDigitsAux acc (natReprAux fuel n) =
      some (acc * 10 ^ (natReprAux fuel n).length + n) := by
  intro fuel
  induction fuel with
  | zero => intro n acc h; exact absurd h (Nat.not_lt_zero n)
  | succ f ih =>
    intro n acc h
    by_cases h10 : n < 10
    · simp only [natReprAux, if_pos h10, parseDigitsAux, digitVal_digitChar n h10,
        List.length_singleton, pow_one]
    · have hdiv : n / 10 < f := by
        have h1 : n / 10 < n := Nat.div_lt_self (by omega) (by omega)
        omega
      simp only [natReprAux, if_neg h10]
      rw [parseDigitsAux_append, ih (n / 10) acc hdiv,
        digitVal_digitChar (n % 10) (Nat.mod_lt n (by omega))]
      have hlen : (natReprAux f (n / 10) ++ [digitChar (n % 10)]).length =
          (natReprAux f (n / 10)).length + 1 := by
        simp
      rw [hlen]
      have heq : ∀ L : Nat, (acc * 10 ^ L + n / 10) * 10 + n % 10 =
          acc * 10 ^ (L + 1) + n := by
        intro L
        have hmod : n / 10 * 10 + n % 10 = n := by
          have := Nat.div_add_mod n 10
          omega
        calc (acc * 10 ^ L + n / 10) * 10 + n % 10
            = acc * (10 ^ L * 10) + (n / 10 * 10 + n % 10) := by ring
          _ = acc * 10 ^ (L + 1) + n := by rw [pow_succ, hmod]
      show some ((acc * 10 ^ (natReprAux f (n / 10)).length + n / 10) * 10 + n % 10) =
        some (acc * 10 ^ ((natReprAux f (n / 10)).length + 1) + n)
      rw [heq]

/-- The rendering of a natural number is never empty. -/
theorem natReprAux_ne_nil (fuel n : Nat) (h : 0 < fuel) :
    natReprAux fuel n ≠ [] := by
  cases fuel with
  | zero => omega
  | succ f =>
    simp only [natReprAux]
    by_cases h10 : n < 10
    · rw [if_pos h10]; simp
    · rw [if_neg h10]; simp

/-- Every character of a rendering is a decimal digit. -/
theorem natReprAux_digits : ∀ (fuel n : Nat) (c : Char),
    c ∈ natReprAux fuel n → (digitVal c).isSome := by
  intro fuel
  induction fuel with
  | zero => intro n c h; simp [natReprAux] at h
  | succ f ih =>
    intro n c h
    simp only [natReprAux] at h
    by_cases h10 : n < 10
    · rw [if_pos h10] at h
      simp only [List.mem_singleton] at h
      rw [h, digitVal_digitChar n h10]
      rfl
    · rw [if_neg h10] at h
      rcases List.mem_append.mp h with h1 | h2
      · exact ih (n / 10) c h1
      · simp only [List.mem_singleton] at h2
        rw [h2, digitVal_digitChar (n % 10) (Nat.mod_lt n (by omega))]
        rfl

/-- Decimal rendering round-trips through the parser. -/
theorem parseDigits_natReprL (n : Nat) : parseDigits (natReprL n) = some n := by
  unfold natReprL
  cases hc : natReprAux (n + 1) n with
  | nil => exact absurd hc (natReprAux_ne_nil (n + 1) n (by omega))
  | cons c cs =>
    show parseDigits (c :: cs) = some n
    rw [show parseDigits (c :: cs) = parseDigitsAux 0 (c :: cs) from rfl]
    rw [← hc, parseDigitsAux_natReprAux (n + 1) n 0 (by omega)]
    simp

/-- Rendered integers that are nonnegative round-trip through the Python
int model. -/
theorem pyIntL_intReprL (i : Int) (h : 0 ≤ i) : pyIntL (intReprL i) = some i := by
  unfold intReprL
  rw [if_neg (by omega)]
  cases hc : natReprL i.toNat with
  | nil => exact absurd hc (natReprAux_ne_nil (i.toNat + 1) i.toNat (by omega))
  | cons c cs =>
    have hdig : (digitVal c).isSome := by
      apply natReprAux_digits (i.toNat + 1) i.toNat
      rw [show natReprAux (i.toNat + 1) i.toNat = natReprL i.toNat from rfl, hc]
      simp
    have hcne : ¬ c = '-' := by
      intro hx
      rw [hx] at hdig
      simp [digitVal] at hdig
    simp only [pyIntL]
    rw [if_neg hcne]
    rw [← hc, parseDigits_natReprL]
    simp [Int.toNat_of_nonneg h]

/-- Join character lists with a separator, the writer side of a delimited
line or of a line-structured text file. -/
def joinCh (d : Char) : List (List Char) → List Char
  | [] => []
  | [x] => x
  | x :: y :: xs => x ++ d :: joinCh d (y :: xs)

/-- Split a character list at a separator, the csv field splitting for
cells free of quoting. -/
def splitCh (d : Char) : List Char → List (List Char)
  | [] => [[]]
  | c :: cs =>
    match splitCh d cs with
    | [] => [[c]]
    | h :: t => if c = d then [] :: h :: t else (c :: h) :: t

/-- Splitting never produces the empty chunk list. -/
theorem splitCh_ne_nil (d : Char) : ∀ cs, splitCh d cs ≠ []
  | [] => by simp [splitCh]
  | c :: cs => by
    simp only [splitCh]
    cases h : splitCh d cs with
    | nil => simp
    | cons hh tt =>
      by_cases hc : c = d
      · simp [hc]
      · simp [hc]

/-- Splitting a delimiter-free list yields the single chunk. -/
theorem splitCh_no_delim (d : Char) : ∀ cs, (∀ c ∈ cs, c ≠ d) → splitCh d cs = [cs]
  | [], _ => rfl
  | c :: cs, h => by
    have ih := splitCh_no_delim d cs (fun x hx => h x (List.mem_cons_of_mem c hx))
    simp only [splitCh, ih]
    simp [h c (List.mem_cons_self c cs)]

/-- Splitting at the first delimiter occurrence after a delimiter-free
prefix. -/
theorem splitCh_append (d : Char) : ∀ (xs ys : List Char), (∀ c ∈ xs, c ≠ d) →
    splitCh d (xs ++ d :: ys) = xs :: splitCh d ys
  | [], ys, _ => by
    simp only [List.nil_append, splitCh]
    cases h : splitCh d ys with
    | nil => exact absurd h (splitCh_ne_nil d ys)
    | cons hh tt => simp
  | x :: xs, ys, h => by
    have ih := splitCh_append d xs ys (fun c hc => h c (List.mem_cons_of_mem x hc))
    simp only [List.cons_append, splitCh, List.append_eq]
    rw [ih]
    simp [h x (List.mem_cons_self x xs)]

/-- Python falsiness of a csv cell read back from DictReader: a missing
cell (None) or the empty string. -/
def pyFalsyCell : Option (List Char) → Bool
  | none => true
  | some [] => true
  | some (_ :: _) => false

/-- Lines of a reference file; the newline separators are implicit per
line, so a stored line holds no newline character. -/
abbrev RefFile := List (List Char)

/-- A reference directory: file name to file, ordered-dict semantics. -/
abbrev RefDir := List (String × RefFile)

/-- Text of a reference file as the read(2048) sample sees it: the lines
joined by a newline character. -/
def fileText (f : RefFile) : List Char := joinCh '\n' f

/-- Embedding of the delimiter auto-detection of
IdCatalog._read_assignments (id_catalog.py lines 118-120): tab if a tab
occurs in the first 2048 characters of the file, comma otherwise. -/
def detectDelim (text : List Char) : Char :=
  if '\t' ∈ text.take 2048 then '\t' else ','

/-- A character placed after a short delimiter-free prefix is inside the
taken sample. -/
theorem mem_take_append (c : Char) : ∀ (xs ys : List Char) (n : Nat),
    xs.length < n → c ∈ (xs ++ c :: ys).take n
  | [], ys, n, h => by
    cases n with
    | zero => omega
    | succ m => simp
  | x :: xs, ys, n, h => by
    cases n with
    | zero => omega
    | succ m =>
      simp only [List.cons_append, List.take_succ_cons]
      exact List.mem_cons_of_mem x (mem_take_append c xs ys m (by simpa using h))

/-- The joined text of a non-empty file starts with its first line. -/
theorem fileText_cons (x : List Char) (xs : List (List Char)) :
    ∃ rest, fileText (x :: xs) = x ++ rest := by
  unfold fileText
  cases xs with
  | nil => exact ⟨[], by simp [joinCh]⟩
  | cons y ys => exact ⟨'\n' :: joinCh '\n' (y :: ys), rfl⟩

/-- Cells the csv DictWriter produces for one assignment row, in fieldnames
order (id_column, value_column). With equal column names the Python dict
literal for the row collapses to the value, which is then written twice. -/
def rowCells (idCol valCol : String) (v : String) (i : Int) : List (List Char) :=
  if idCol = valCol then [v.data, v.data] else [intReprL i, v.data]

/-- Embedding of IdCatalog._write_records (id_catalog.py lines 105-112) for
the two-column header and assignment rows finalize passes it: a tab-joined
header line and one tab-joined line per assignment, in assignment order.
The csv quoting layer is not modelled, so the round-trip theorems restrict
values and column names to delimiter-free text. -/
def write_records (idCol valCol : String) (assignments : List (String × Int)) :
    RefFile :=
  joinCh '\t' [idCol.data, valCol.data] ::
    assignments.map (fun p => joinCh '\t' (rowCells idCol valCol p.1 p.2))

/-- One row step of IdCatalog._read_assignments: csv DictReader pairs the
split cells with the header fields (a blank row is skipped, a missing cell
reads as None, the last duplicate key wins), a falsy id or value cell and
a non-integer id cell are skipped, and an accepted pair updates the
assignments dict. -/
def readRow (delim : Char) (fields : List (List Char)) (idCol valCol : String)
    (acc : List (String × Int)) (line : List Char) : List (String × Int) :=
  if line = [] then acc
  else
    if pyFalsyCell (pyZipGet idCol.data (fields.zip (splitCh delim line))) ||
        pyFalsyCell (pyZipGet valCol.data (fields.zip (splitCh delim line))) then acc
    else
      match pyIntL ((pyZipGet idCol.data (fields.zip (splitCh delim line))).getD []) with
      | none => acc
      | some i =>
        pyUpd acc
          (String.mk ((pyZipGet valCol.data (fields.zip (splitCh delim line))).getD [])) i

/-- Embedding of IdCatalog._read_assignments (id_catalog.py lines 114-131):
delimiter auto-detection on the 2048-character sample of the file text,
header fields from the first line, then the DictReader row loop. -/
def read_assignments (f : RefFile) (idCol valCol : String) :
    List (String × Int) :=
  match f with
  | [] => []
  | header :: rows =>
    rows.foldl
      (readRow (detectDelim (fileText (header :: rows)))
        (splitCh (detectDelim (fileText (header :: rows))) header) idCol valCol) []

/-- Characters of a rendered nonnegative integer are digits, hence never a
tab. -/
theorem intReprL_no_tab (i : Int) (h : 0 ≤ i) : ∀ c ∈ intReprL i, c ≠ '\t' := by
  intro c hc
  unfold intReprL at hc
  rw [if_neg (by omega)] at hc
  have := natReprAux_digits (i.toNat + 1) i.toNat c hc
  intro hx
  rw [hx] at this
  simp [digitVal] at this

/-- A rendered nonnegative integer is a non-empty character list. -/
theorem intReprL_ne_nil (i : Int) (h : 0 ≤ i) : intReprL i ≠ [] := by
  unfold intReprL
  rw [if_neg (by omega)]
  exact natReprAux_ne_nil (i.toNat + 1) i.toNat (by omega)

/-- Distinct strings have distinct character lists. -/
theorem data_ne_of_ne {a b : String} (h : a ≠ b) : a.data ≠ b.data :=
  fun hx => h (String.ext hx)

/-- A non-empty string has a non-empty character list. -/
theorem data_ne_nil_of_ne {v : String} (h : v ≠ "") : v.data ≠ [] := by
  intro hx
  exact h (String.ext (by simpa using hx))

/-- Update of a key that is not yet present appends the pair. -/
theorem pyUpd_append {α β : Type} [DecidableEq α] (l : List (α × β)) (k : α)
    (v : β) (h : assocFind k l = none) : pyUpd l k v = l ++ [(k, v)] := by
  unfold pyUpd
  rw [h]
  rfl

/-- Association lookup across an append. -/
theorem assocFind_append {α β : Type} [DecidableEq α] (k : α) :
    ∀ (l1 l2 : List (α × β)), assocFind k (l1 ++ l2) =
      match assocFind k l1 with
      | some x => some x
      | none => assocFind k l2
  | [], l2 => rfl
  | p :: rest, l2 => by
    simp only [List.cons_append, assocFind]
    by_cases hp : p.1 = k
    · simp [hp]
    · simp only [if_neg hp]
      exact assocFind_append k rest l2

/-- Reading back the written line of one good assignment pair updates the
dict exactly as the writer intended. -/
theorem readRow_write_line (idCol valCol : String) (hcols : idCol ≠ valCol)
    (v : String) (i : Int) (hv : v ≠ "") (hvt : '\t' ∉ v.data) (hi : 0 ≤ i)
    (acc : List (String × Int)) :
    readRow '\t' [idCol.data, valCol.data] idCol valCol acc
      (joinCh '\t' (rowCells idCol valCol v i)) = pyUpd acc v i := by
  have hcells : rowCells idCol valCol v i = [intReprL i, v.data] := by
    unfold rowCells
    rw [if_neg hcols]
  rw [hcells]
  have hline : joinCh '\t' [intReprL i, v.data] = intReprL i ++ '\t' :: v.data := rfl
  rw [hline]
  unfold readRow
  rw [if_neg (by simp)]
  have hsplit : splitCh '\t' (intReprL i ++ '\t' :: v.data) = [intReprL i, v.data] := by
    rw [splitCh_append '\t' (intReprL i) v.data (intReprL_no_tab i hi)]
    rw [splitCh_no_delim '\t' v.data (fun c hc hx => hvt (hx ▸ hc))]
  rw [hsplit]
  have hzip : List.zip [idCol.data, valCol.data] [intReprL i, v.data] =
      [(idCol.data, intReprL i), (valCol.data, v.data)] := rfl
  rw [hzip]
  have hrawid : pyZipGet idCol.data [(idCol.data, intReprL i), (valCol.data, v.data)] =
      some (intReprL i) := by
    unfold pyZipGet
    simp only [List.reverse_cons, List.reverse_nil, List.nil_append, List.cons_append,
      assocFind]
    rw [if_neg (data_ne_of_ne (fun hx => hcols hx.symm))]
    simp
  have hrawval : pyZipGet valCol.data [(idCol.data, intReprL i), (valCol.data, v.data)] =
      some v.data := by
    unfold pyZipGet
    simp only [List.reverse_cons, List.reverse_nil, List.nil_append, List.cons_append,
      assocFind]
    simp
  rw [hrawid, hrawval]
  have hfalsy1 : pyFalsyCell (some (intReprL i)) = false := by
    cases hc : intReprL i with
    | nil => exact absurd hc (intReprL_ne_nil i hi)
    | cons c cs => rfl
  have hfalsy2 : pyFalsyCell (some v.data) = false := by
    cases hc : v.data with
    | nil => exact absurd hc (data_ne_nil_of_ne hv)
    | cons c cs => rfl
  rw [hfalsy1, hfalsy2]
  simp only [Bool.or_self, Bool.false_eq_true, if_false, Option.getD_some]
  rw [pyIntL_intReprL i hi]

/-- Reading back all written rows of good, key-distinct assignment pairs
appends them to the accumulator in order. -/
theorem foldl_readRow_write (idCol valCol : String) (hcols : idCol ≠ valCol) :
    ∀ (asg acc : List (String × Int)),
    (∀ p ∈ asg, p.1 ≠ "" ∧ '\t' ∉ p.1.data ∧ 0 ≤ p.2) →
    (asg.map Prod.fst).Nodup →
    (∀ p ∈ asg, assocFind p.1 acc = none) →
    (asg.map (fun p => joinCh '\t' (rowCells idCol valCol p.1 p.2))).foldl
      (readRow '\t' [idCol.data, valCol.data] idCol valCol) acc = acc ++ asg
  | [], acc, _, _, _ => by simp
  | p :: rest, acc, hpairs, hnodup, hacc => by
    simp only [List.map_cons, List.foldl_cons]
    obtain ⟨hp1, hp2, hp3⟩ := hpairs p (List.mem_cons_self p rest)
    rw [readRow_write_line idCol valCol hcols p.1 p.2 hp1 hp2 hp3 acc]
    rw [pyUpd_append acc p.1 p.2 (hacc p (List.mem_cons_self p rest))]
    have hnd : (rest.map Prod.fst).Nodup := (List.nodup_cons.mp hnodup).2
    have hhd : p.1 ∉ rest.map Prod.fst := (List.nodup_cons.mp hnodup).1
    have hacc2 : ∀ q ∈ rest, assocFind q.1 (acc ++ [(p.1, p.2)]) = none := by
      intro q hq
      rw [assocFind_append q.1 acc [(p.1, p.2)]]
      rw [hacc q (List.mem_cons_of_mem p hq)]
      have hne : ¬ p.1 = q.1 := by
        intro hx
        exact hhd (hx ▸ List.mem_map_of_mem Prod.fst hq)
      simp only [assocFind, if_neg hne]
    rw [foldl_readRow_write idCol valCol hcols rest (acc ++ [(p.1, p.2)])
      (fun q hq => hpairs q (List.mem_cons_of_mem p hq)) hnd hacc2]
    simp

/-- Round-trip of one written reference file: reading back a file written
by _write_records recovers the assignment list exactly, because the header
tab makes the auto-detection choose the write delimiter. -/
theorem read_write_records (idCol valCol : String) (hcols : idCol ≠ valCol)
    (hidt : '\t' ∉ idCol.data) (hvalt : '\t' ∉ valCol.data)
    (hlen : idCol.data.length < 2048)
    (asg : List (String × Int))
    (hpairs : ∀ p ∈ asg, p.1 ≠ "" ∧ '\t' ∉ p.1.data ∧ 0 ≤ p.2)
    (hnodup : (asg.map Prod.fst).Nodup) :
    read_assignments (write_records idCol valCol asg) idCol valCol = asg := by
  have hheader : joinCh '\t' [idCol.data, valCol.data] =
      idCol.data ++ '\t' :: valCol.data := rfl
  have hdet : detectDelim (fileText (joinCh '\t' [idCol.data, valCol.data] ::
      asg.map (fun p => joinCh '\t' (rowCells idCol valCol p.1 p.2)))) = '\t' := by
    obtain ⟨rest, hrest⟩ := fileText_cons (joinCh '\t' [idCol.data, valCol.data])
      (asg.map (fun p => joinCh '\t' (rowCells idCol valCol p.1 p.2)))
    unfold detectDelim
    rw [if_pos]
    rw [hrest, hheader, List.append_assoc, List.cons_append]
    exact mem_take_append '\t' idCol.data (valCol.data ++ rest) 2048 hlen
  have hfields : splitCh '\t' (joinCh '\t' [idCol.data, valCol.data]) =
      [idCol.data, valCol.data] := by
    rw [hheader]
    rw [splitCh_append '\t' idCol.data valCol.data (fun c hc hx => hidt (hx ▸ hc))]
    rw [splitCh_no_delim '\t' valCol.data (fun c hc hx => hvalt (hx ▸ hc))]
  show (asg.map (fun p => joinCh '\t' (rowCells idCol valCol p.1 p.2))).foldl
      (readRow _ _ idCol valCol) [] = asg
  rw [hdet, hfields]
  rw [foldl_readRow_write idCol valCol hcols asg [] hpairs hnodup
    (fun q _ => rfl)]
  simp

/-- Keys of an assignment are the canonically sorted values. -/
theorem assign_map_fst (values : List String) :
    (IdCatalog.assign values).map Prod.fst = List.insertionSort rKey values := by
  unfold IdCatalog.assign
  rw [List.map_map]
  have hcomp : (Prod.fst ∘ fun p : Nat × String => (p.2, (p.1 : Int))) = Prod.snd := rfl
  rw [hcomp, List.enumFrom_map_snd]

/-- Every assignment pair has a value drawn from the recorded values and a
positive ID. -/
theorem assign_pairs (values : List String)
    (hv : ∀ v ∈ values, v ≠ "" ∧ '\t' ∉ v.data) :
    ∀ p ∈ IdCatalog.assign values, p.1 ≠ "" ∧ '\t' ∉ p.1.data ∧ 0 ≤ p.2 := by
  intro p hp
  unfold IdCatalog.assign at hp
  obtain ⟨q, hq, hpq⟩ := List.mem_map.mp hp
  obtain ⟨qi, qv⟩ := q
  obtain ⟨h1, h2, h3⟩ := List.mem_enumFrom hq
  have hlen : qi - 1 < (List.insertionSort rKey values).length := by omega
  have hmem : qv ∈ List.insertionSort rKey values := by
    rw [h3]
    exact List.getElem_mem hlen
  have hval : qv ∈ values := (List.perm_insertionSort rKey values).mem_iff.mp hmem
  obtain ⟨hv1, hv2⟩ := hv qv hval
  rw [← hpq]
  exact ⟨hv1, hv2, by omega⟩

/-- Keys of an assignment over duplicate-free values are duplicate-free. -/
theorem assign_nodup (values : List String) (h : values.Nodup) :
    ((IdCatalog.assign values).map Prod.fst).Nodup := by
  rw [assign_map_fst]
  exact (List.perm_insertionSort rKey values).symm.nodup h

/-- File name finalize and load_existing derive for an enumeration table:
the configured reference filename when truthy, else table.csv (Python
`or` also replaces an empty string). -/
def enumFilename (cfg : EnumerationConfig) : String :=
  match cfg.reference_filename with
  | some f => if f = "" then cfg.table ++ ".csv" else f
  | none => cfg.table ++ ".csv"

namespace IdCatalog

/-- Assignment finalize computes for one enumeration table: _assign over
the recorded distinct values (empty set when nothing was recorded). -/
def enumAssignFor (st : IdCatalogState) (p : String × EnumerationConfig) :
    List (String × Int) :=
  assign ((assocFind p.1 st.enumValues).getD [])

/-- Assignment finalize computes for one namespace. -/
def nsAssignFor (st : IdCatalogState) (p : String × NamespaceConfig) :
    List (String × Int) :=
  assign ((assocFind p.1 st.namespaceValues).getD [])

/-- Assignment-dict step of the finalize loop over enumeration configs. -/
def enumAsgStep (st : IdCatalogState) (m : List (String × List (String × Int)))
    (p : String × EnumerationConfig) : List (String × List (String × Int)) :=
  pyUpd m p.1 (enumAssignFor st p)

/-- File-writing step of the finalize loop over enumeration configs. -/
def enumDirStep (st : IdCatalogState) (d : RefDir)
    (p : String × EnumerationConfig) : RefDir :=
  pyUpd d (enumFilename p.2)
    (write_records p.2.id_column p.2.value_column (enumAssignFor st p))

/-- Assignment-dict step of the finalize loop over namespace configs. -/
def nsAsgStep (st : IdCatalogState) (m : List (String × List (String × Int)))
    (p : String × NamespaceConfig) : List (String × List (String × Int)) :=
  pyUpd m p.1 (nsAssignFor st p)

/-- File-writing step of the finalize loop over namespace configs. -/
def nsDirStep (st : IdCatalogState) (d : RefDir) (p : String × NamespaceConfig) :
    RefDir :=
  pyUpd d p.2.filename
    (write_records p.2.id_column p.2.value_column (nsAssignFor st p))

/-- Embedding of IdCatalog.finalize (id_catalog.py lines 48-74): rebuild
the enum assignment dict from scratch in config order, writing one file
per table into the directory, then the same for namespaces; a file of the
same name already in the directory is overwritten. -/
def finalize (st : IdCatalogState) (dir0 : RefDir) : IdCatalogState × RefDir :=
  ({ st with
      enumAssignments := st.enumConfigs.foldl (enumAsgStep st) [],
      namespaceAssignments := st.namespaceConfigs.foldl (nsAsgStep st) [] },
    st.namespaceConfigs.foldl (nsDirStep st)
      (st.enumConfigs.foldl (enumDirStep st) dir0))

/-- Enumeration half of the load_existing loop (id_catalog.py lines
82-87): missing file short-circuits to None, otherwise each table entry
is read and stored in the fresh dict. -/
def loadEnumLoop (dir : RefDir) :
    List (String × EnumerationConfig) → List (String × List (String × Int)) →
    Option (List (String × List (String × Int)))
  | [], acc => some acc
  | p :: rest, acc =>
    match assocFind (enumFilename p.2) dir with
    | none => none
    | some f =>
      loadEnumLoop dir rest
        (pyUpd acc p.1 (read_assignments f p.2.id_column p.2.value_column))

/-- Namespace half of the load_existing loop (id_catalog.py lines 89-94). -/
def loadNsLoop (dir : RefDir) :
    List (String × NamespaceConfig) → List (String × List (String × Int)) →
    Option (List (String × List (String × Int)))
  | [], acc => some acc
  | p :: rest, acc =>
    match assocFind p.2.filename dir with
    | none => none
    | some f =>
      loadNsLoop dir rest
        (pyUpd acc p.1 (read_assignments f p.2.id_column p.2.value_column))

/-- Embedding of IdCatalog.load_existing (id_catalog.py lines 76-98): a
missing directory or any missing reference file returns False with the
state untouched; only after every configured file was read are both
assignment dicts replaced, at once, and True returned. -/
def load_existing (st : IdCatalogState) (dir? : Option RefDir) :
    Bool × IdCatalogState :=
  match dir? with
  | none => (false, st)
  | some dir =>
    match loadEnumLoop dir st.enumConfigs [] with
    | none => (false, st)
    | some ea =>
      match loadNsLoop dir st.namespaceConfigs [] with
      | none => (false, st)
      | some na =>
        (true, { st with enumAssignments := ea, namespaceAssignments := na })

end IdCatalog

/-- The enum load loop succeeds exactly when every configured file is
present. -/
theorem loadEnumLoop_isSome (dir : RefDir) :
    ∀ (cfgs : List (String × EnumerationConfig))
      (acc : List (String × List (String × Int))),
    (IdCatalog.loadEnumLoop dir cfgs acc).isSome = true ↔
      ∀ p ∈ cfgs, (assocFind (enumFilename p.2) dir).isSome = true
  | [], acc => by simp [IdCatalog.loadEnumLoop]
  | p :: rest, acc => by
    simp only [IdCatalog.loadEnumLoop]
    cases hf : assocFind (enumFilename p.2) dir with
    | none =>
      constructor
      · intro h; cases h
      · intro hall
        have hthis := hall p (List.mem_cons_self p rest)
        rw [hf] at hthis
        simp at hthis
    | some f =>
      rw [loadEnumLoop_isSome dir rest _]
      constructor
      · intro hall q hq
        rcases List.mem_cons.mp hq with rfl | hmem
        · rw [hf]; rfl
        · exact hall q hmem
      · intro hall q hq
        exact hall q (List.mem_cons_of_mem p hq)

/-- The namespace load loop succeeds exactly when every configured file is
present. -/
theorem loadNsLoop_isSome (dir : RefDir) :
    ∀ (cfgs : List (String × NamespaceConfig))
      (acc : List (String × List (String × Int))),
    (IdCatalog.loadNsLoop dir cfgs acc).isSome = true ↔
      ∀ p ∈ cfgs, (assocFind p.2.filename dir).isSome = true
  | [], acc => by simp [IdCatalog.loadNsLoop]
  | p :: rest, acc => by
    simp only [IdCatalog.loadNsLoop]
    cases hf : assocFind p.2.filename dir with
    | none =>
      constructor
      · intro h; cases h
      · intro hall
        have hthis := hall p (List.mem_cons_self p rest)
        rw [hf] at hthis
        simp at hthis
    | some f =>
      rw [loadNsLoop_isSome dir rest _]
      constructor
      · intro hall q hq
        rcases List.mem_cons.mp hq with rfl | hmem
        · rw [hf]; rfl
        · exact hall q hmem
      · intro hall q hq
        exact hall q (List.mem_cons_of_mem p hq)

/-- C9: load_existing returns true exactly when the directory exists and
every configured enumeration table file and namespace file is present in
it; a missing directory or any one missing file yields false. -/
theorem C9_load_existing_true_iff (st : IdCatalogState) (dir? : Option RefDir) :
    (IdCatalog.load_existing st dir?).1 = true ↔
      ∃ dir, dir? = some dir ∧
        (∀ p ∈ st.enumConfigs, (assocFind (enumFilename p.2) dir).isSome = true) ∧
        (∀ p ∈ st.namespaceConfigs, (assocFind p.2.filename dir).isSome = true) := by
  cases dir? with
  | none =>
    simp only [IdCatalog.load_existing]
    constructor
    · intro h; cases h
    · rintro ⟨dir, hdir, -⟩; cases hdir
  | some dir =>
    simp only [IdCatalog.load_existing]
    cases he : IdCatalog.loadEnumLoop dir st.enumConfigs [] with
    | none =>
      constructor
      · intro h; cases h
      · rintro ⟨dir2, hdir2, hall, -⟩
        injection hdir2 with h2
        subst h2
        have hthis := (loadEnumLoop_isSome dir st.enumConfigs []).mpr hall
        rw [he] at hthis
        cases hthis
    | some ea =>
      cases hn : IdCatalog.loadNsLoop dir st.namespaceConfigs [] with
      | none =>
        constructor
        · intro h; cases h
        · rintro ⟨dir2, hdir2, -, hall⟩
          injection hdir2 with h2
          subst h2
          have hthis := (loadNsLoop_isSome dir st.namespaceConfigs []).mpr hall
          rw [hn] at hthis
          cases hthis
      | some na =>
        constructor
        · intro _
          refine ⟨dir, rfl, ?_, ?_⟩
          · apply (loadEnumLoop_isSome dir st.enumConfigs []).mp
            rw [he]; rfl
          · apply (loadNsLoop_isSome dir st.namespaceConfigs []).mp
            rw [hn]; rfl
        · intro _; rfl

/-- C10: frame of load_existing. On a false return (missing directory or
any missing file) the catalog state is returned exactly as it was; on a
true return the state differs from the old one only in the two assignment
dicts, which are both replaced at once with the loaded dicts. -/
theorem C10_load_existing_frame (st : IdCatalogState) (dir? : Option RefDir) :
    ((IdCatalog.load_existing st dir?).1 = false →
      (IdCatalog.load_existing st dir?).2 = st) ∧
    (∀ dir, dir? = some dir → (IdCatalog.load_existing st dir?).1 = true →
      ∃ ea na, IdCatalog.loadEnumLoop dir st.enumConfigs [] = some ea ∧
        IdCatalog.loadNsLoop dir st.namespaceConfigs [] = some na ∧
        (IdCatalog.load_existing st dir?).2 =
          { st with enumAssignments := ea, namespaceAssignments := na }) := by
  cases dir? with
  | none =>
    refine ⟨fun _ => rfl, ?_⟩
    intro dir hdir
    cases hdir
  | some dir =>
    simp only [IdCatalog.load_existing]
    cases he : IdCatalog.loadEnumLoop dir st.enumConfigs [] with
    | none => exact ⟨fun _ => rfl, fun dir2 hdir2 htrue => by cases htrue⟩
    | some ea =>
      cases hn : IdCatalog.loadNsLoop dir st.namespaceConfigs [] with
      | none => exact ⟨fun _ => rfl, fun dir2 hdir2 htrue => by cases htrue⟩
      | some na =>
        refine ⟨?_, ?_⟩
        · intro hfalse
          cases hfalse
        · intro dir2 hdir2 _
          injection hdir2 with h2
          subst h2
          exact ⟨ea, na, he, hn, rfl⟩

/-- C10 witness: a catalog with one configured table and an existing but
empty directory: the load fails and leaves the state exactly as built. -/
theorem C10_load_existing_frame_witness :
    (IdCatalog.load_existing
        (IdCatalog.init [⟨"country", "id", "value", 63, none, none⟩] [])
        (some [])).2 =
      IdCatalog.init [⟨"country", "id", "value", 63, none, none⟩] [] :=
  (C10_load_existing_frame
    (IdCatalog.init [⟨"country", "id", "value", 63, none, none⟩] []) (some [])).1 rfl

/-- Updating one key leaves every other lookup unchanged (map half). -/
theorem assocFind_map_upd {α β : Type} [DecidableEq α] (k k' : α) (v : β)
    (h : ¬ k' = k) : ∀ l : List (α × β),
    assocFind k (l.map (fun p => if p.1 = k' then (k', v) else p)) = assocFind k l
  | [] => rfl
  | p :: rest => by
    simp only [List.map_cons]
    by_cases hp : p.1 = k'
    · rw [if_pos hp]
      show (if k' = k then some v else _) = _
      rw [if_neg h]
      show assocFind k (rest.map _) = assocFind k (p :: rest)
      rw [assocFind_map_upd k k' v h rest]
      show _ = (if p.1 = k then some p.2 else assocFind k rest)
      rw [if_neg (hp ▸ h)]
    · rw [if_neg hp]
      show (if p.1 = k then some p.2 else _) = (if p.1 = k then some p.2 else _)
      by_cases hk : p.1 = k
      · rw [if_pos hk, if_pos hk]
      · rw [if_neg hk, if_neg hk]
        exact assocFind_map_upd k k' v h rest

/-- Updating one key leaves every other lookup unchanged. -/
theorem assocFind_pyUpd_other {α β : Type} [DecidableEq α] (l : List (α × β))
    (k k' : α) (v : β) (h : ¬ k' = k) :
    assocFind k (pyUpd l k' v) = assocFind k l := by
  unfold pyUpd
  by_cases hs : (assocFind k' l).isSome
  · rw [if_pos hs]
    exact assocFind_map_upd k k' v h l
  · rw [if_neg hs, assocFind_append]
    cases hl : assocFind k l with
    | none => simp [assocFind, if_neg h]
    | some x => rfl

/-- Writing enum files for configs whose file names avoid k leaves the
lookup of k alone. -/
theorem enumDirFold_lookup_other (st : IdCatalogState) (k : String) :
    ∀ (cfgs : List (String × EnumerationConfig)) (d : RefDir),
    k ∉ cfgs.map (fun p => enumFilename p.2) →
    assocFind k (cfgs.foldl (IdCatalog.enumDirStep st) d) = assocFind k d
  | [], d, _ => rfl
  | p :: rest, d, hk => by
    simp only [List.foldl_cons]
    rw [enumDirFold_lookup_other st k rest _
      (fun hx => hk (List.mem_cons_of_mem _ hx))]
    unfold IdCatalog.enumDirStep
    exact assocFind_pyUpd_other d k (enumFilename p.2) _
      (fun hx => hk (by rw [List.map_cons, hx]; exact List.mem_cons_self k _))

/-- Writing namespace files for configs whose file names avoid k leaves
the lookup of k alone. -/
theorem nsDirFold_lookup_other (st : IdCatalogState) (k : String) :
    ∀ (cfgs : List (String × NamespaceConfig)) (d : RefDir),
    k ∉ cfgs.map (fun p => p.2.filename) →
    assocFind k (cfgs.foldl (IdCatalog.nsDirStep st) d) = assocFind k d
  | [], d, _ => rfl
  | p :: rest, d, hk => by
    simp only [List.foldl_cons]
    rw [nsDirFold_lookup_other st k rest _
      (fun hx => hk (List.mem_cons_of_mem _ hx))]
    unfold IdCatalog.nsDirStep
    exact assocFind_pyUpd_other d k p.2.filename _
      (fun hx => hk (by rw [List.map_cons, hx]; exact List.mem_cons_self k _))

/-- After the enum write fold, the file of each config is exactly the one
written for it, provided the configured file names are distinct. -/
theorem enumDirFold_lookup_mem (st : IdCatalogState) :
    ∀ (cfgs : List (String × EnumerationConfig)) (d : RefDir)
      (p : String × EnumerationConfig),
    (cfgs.map (fun q => enumFilename q.2)).Nodup → p ∈ cfgs →
    assocFind (enumFilename p.2) (cfgs.foldl (IdCatalog.enumDirStep st) d) =
      some (write_records p.2.id_column p.2.value_column
        (IdCatalog.enumAssignFor st p))
  | [], _, p, _, hp => absurd hp (List.not_mem_nil p)
  | q :: rest, d, p, hnd, hp => by
    simp only [List.foldl_cons]
    rw [List.map_cons] at hnd
    rcases List.mem_cons.mp hp with rfl | hmem
    · rw [enumDirFold_lookup_other st (enumFilename p.2) rest _
        (List.nodup_cons.mp hnd).1]
      unfold IdCatalog.enumDirStep
      exact assocFind_pyUpd_self d (enumFilename p.2) _
    · exact enumDirFold_lookup_mem st rest _ p (List.nodup_cons.mp hnd).2 hmem

/-- After the namespace write fold, the file of each config is exactly the
one written for it, provided the configured file names are distinct. -/
theorem nsDirFold_lookup_mem (st : IdCatalogState) :
    ∀ (cfgs : List (String × NamespaceConfig)) (d : RefDir)
      (p : String × NamespaceConfig),
    (cfgs.map (fun q => q.2.filename)).Nodup → p ∈ cfgs →
    assocFind p.2.filename (cfgs.foldl (IdCatalog.nsDirStep st) d) =
      some (write_records p.2.id_column p.2.value_column
        (IdCatalog.nsAssignFor st p))
  | [], _, p, _, hp => absurd hp (List.not_mem_nil p)
  | q :: rest, d, p, hnd, hp => by
    simp only [List.foldl_cons]
    rw [List.map_cons] at hnd
    rcases List.mem_cons.mp hp with rfl | hmem
    · rw [nsDirFold_lookup_other st p.2.filename rest _
        (List.nodup_cons.mp hnd).1]
      unfold IdCatalog.nsDirStep
      exact assocFind_pyUpd_self d p.2.filename _
    · exact nsDirFold_lookup_mem st rest _ p (List.nodup_cons.mp hnd).2 hmem

/-- The enum load loop, when every file is found and reads back the
finalized assignment, rebuilds exactly the finalize-time assignment
dict. -/
theorem loadEnumLoop_reads (dir : RefDir) (st : IdCatalogState) :
    ∀ (cfgs : List (String × EnumerationConfig))
      (acc : List (String × List (String × Int))),
    (∀ p ∈ cfgs, assocFind (enumFilename p.2) dir =
        some (write_records p.2.id_column p.2.value_column
          (IdCatalog.enumAssignFor st p)) ∧
      read_assignments (write_records p.2.id_column p.2.value_column
          (IdCatalog.enumAssignFor st p)) p.2.id_column p.2.value_column =
        IdCatalog.enumAssignFor st p) →
    IdCatalog.loadEnumLoop dir cfgs acc =
      some (cfgs.foldl (IdCatalog.enumAsgStep st) acc)
  | [], acc, _ => rfl
  | p :: rest, acc, hall => by
    obtain ⟨hfind, hread⟩ := hall p (List.mem_cons_self p rest)
    simp only [IdCatalog.loadEnumLoop, hfind, hread, List.foldl_cons]
    exact loadEnumLoop_reads dir st rest _
      (fun q hq => hall q (List.mem_cons_of_mem p hq))

/-- The namespace load loop analog of the previous lemma. -/
theorem loadNsLoop_reads (dir : RefDir) (st : IdCatalogState) :
    ∀ (cfgs : List (String × NamespaceConfig))
      (acc : List (String × List (String × Int))),
    (∀ p ∈ cfgs, assocFind p.2.filename dir =
        some (write_records p.2.id_column p.2.value_column
          (IdCatalog.nsAssignFor st p)) ∧
      read_assignments (write_records p.2.id_column p.2.value_column
          (IdCatalog.nsAssignFor st p)) p.2.id_column p.2.value_column =
        IdCatalog.nsAssignFor st p) →
    IdCatalog.loadNsLoop dir cfgs acc =
      some (cfgs.foldl (IdCatalog.nsAsgStep st) acc)
  | [], acc, _ => rfl
  | p :: rest, acc, hall => by
    obtain ⟨hfind, hread⟩ := hall p (List.mem_cons_self p rest)
    simp only [IdCatalog.loadNsLoop, hfind, hread, List.foldl_cons]
    exact loadNsLoop_reads dir st rest _
      (fun q hq => hall q (List.mem_cons_of_mem p hq))

/-- C4: round-trip of finalize and load_existing on the same directory.
For a catalog whose configured file names are pairwise distinct, whose
column names are distinct per file, delimiter-free and of sane length, and
whose recorded values are distinct, non-empty and delimiter-free (record_enum
and record_namespace guarantee non-emptiness and distinctness; the
delimiter-freedom stands in for the unmodelled csv quoting layer),
load_existing right after finalize returns true and reproduces the
in-memory assignments exactly. -/
theorem C4_finalize_load_roundtrip (st : IdCatalogState) (dir0 : RefDir)
    (hfn : ((st.enumConfigs.map (fun p => enumFilename p.2)) ++
      st.namespaceConfigs.map (fun p => p.2.filename)).Nodup)
    (hecols : ∀ p ∈ st.enumConfigs, p.2.id_column ≠ p.2.value_column ∧
      '\t' ∉ p.2.id_column.data ∧ '\t' ∉ p.2.value_column.data ∧
      p.2.id_column.data.length < 2048)
    (hncols : ∀ p ∈ st.namespaceConfigs, p.2.id_column ≠ p.2.value_column ∧
      '\t' ∉ p.2.id_column.data ∧ '\t' ∉ p.2.value_column.data ∧
      p.2.id_column.data.length < 2048)
    (hevals : ∀ p ∈ st.enumConfigs,
      ((assocFind p.1 st.enumValues).getD []).Nodup ∧
      ∀ v ∈ (assocFind p.1 st.enumValues).getD [], v ≠ "" ∧ '\t' ∉ v.data)
    (hnvals : ∀ p ∈ st.namespaceConfigs,
      ((assocFind p.1 st.namespaceValues).getD []).Nodup ∧
      ∀ v ∈ (assocFind p.1 st.namespaceValues).getD [], v ≠ "" ∧ '\t' ∉ v.data) :
    IdCatalog.load_existing (IdCatalog.finalize st dir0).1
      (some (IdCatalog.finalize st dir0).2) =
      (true, (IdCatalog.finalize st dir0).1) := by
  have hnde : (st.enumConfigs.map (fun p => enumFilename p.2)).Nodup :=
    hfn.of_append_left
  have hndn : (st.namespaceConfigs.map (fun p => p.2.filename)).Nodup :=
    hfn.of_append_right
  have hdisj : ∀ k, k ∈ st.enumConfigs.map (fun p => enumFilename p.2) →
      k ∉ st.namespaceConfigs.map (fun p => p.2.filename) :=
    fun k hk1 hk2 => (List.disjoint_of_nodup_append hfn) hk1 hk2
  have henum : ∀ p ∈ st.enumConfigs,
      assocFind (enumFilename p.2) (IdCatalog.finalize st dir0).2 =
        some (write_records p.2.id_column p.2.value_column
          (IdCatalog.enumAssignFor st p)) ∧
      read_assignments (write_records p.2.id_column p.2.value_column
          (IdCatalog.enumAssignFor st p)) p.2.id_column p.2.value_column =
        IdCatalog.enumAssignFor st p := by
    intro p hp
    obtain ⟨hc1, hc2, hc3, hc4⟩ := hecols p hp
    obtain ⟨hv1, hv2⟩ := hevals p hp
    constructor
    · show assocFind (enumFilename p.2)
          (st.namespaceConfigs.foldl (IdCatalog.nsDirStep st)
            (st.enumConfigs.foldl (IdCatalog.enumDirStep st) dir0)) = _
      rw [nsDirFold_lookup_other st (enumFilename p.2) st.namespaceConfigs _
        (hdisj (enumFilename p.2) (List.mem_map_of_mem _ hp))]
      exact enumDirFold_lookup_mem st st.enumConfigs dir0 p hnde hp
    · unfold IdCatalog.enumAssignFor
      exact read_write_records p.2.id_column p.2.value_column hc1 hc2 hc3 hc4 _
        (assign_pairs _ hv2) (assign_nodup _ hv1)
  have hns : ∀ p ∈ st.namespaceConfigs,
      assocFind p.2.filename (IdCatalog.finalize st dir0).2 =
        some (write_records p.2.id_column p.2.value_column
          (IdCatalog.nsAssignFor st p)) ∧
      read_assignments (write_records p.2.id_column p.2.value_column
          (IdCatalog.nsAssignFor st p)) p.2.id_column p.2.value_column =
        IdCatalog.nsAssignFor st p := by
    intro p hp
    obtain ⟨hc1, hc2, hc3, hc4⟩ := hncols p hp
    obtain ⟨hv1, hv2⟩ := hnvals p hp
    constructor
    · exact nsDirFold_lookup_mem st st.namespaceConfigs _ p hndn hp
    · unfold IdCatalog.nsAssignFor
      exact read_write_records p.2.id_column p.2.value_column hc1 hc2 hc3 hc4 _
        (assign_pairs _ hv2) (assign_nodup _ hv1)
  unfold IdCatalog.load_existing
  simp only [show (IdCatalog.finalize st dir0).1.enumConfigs = st.enumConfigs from rfl,
    show (IdCatalog.finalize st dir0).1.namespaceConfigs = st.namespaceConfigs from rfl,
    loadEnumLoop_reads (IdCatalog.finalize st dir0).2 st st.enumConfigs [] henum,
    loadNsLoop_reads (IdCatalog.finalize st dir0).2 st st.namespaceConfigs [] hns]
  rfl

/-- C4 witness: one enumeration table and one namespace with recorded
values round-trip through finalize and load_existing. -/
theorem C4_finalize_load_roundtrip_witness :
    IdCatalog.load_existing
      (IdCatalog.finalize
        (IdCatalog.record_namespace
          (IdCatalog.record_enum
            (IdCatalog.record_enum
              (IdCatalog.init [⟨"country", "id", "value", 63, none, none⟩]
                [⟨"scopus_author", "scopus.csv", "sid", "sval"⟩])
              "country" "US")
            "country" "fr")
          "scopus_author" "12345") []).1
      (some (IdCatalog.finalize
        (IdCatalog.record_namespace
          (IdCatalog.record_enum
            (IdCatalog.record_enum
              (IdCatalog.init [⟨"country", "id", "value", 63, none, none⟩]
                [⟨"scopus_author", "scopus.csv", "sid", "sval"⟩])
              "country" "US")
            "country" "fr")
          "scopus_author" "12345") []).2) =
      (true, (IdCatalog.finalize
        (IdCatalog.record_namespace
          (IdCatalog.record_enum
            (IdCatalog.record_enum
              (IdCatalog.init [⟨"country", "id", "value", 63, none, none⟩]
                [⟨"scopus_author", "scopus.csv", "sid", "sval"⟩])
              "country" "US")
            "country" "fr")
          "scopus_author" "12345") []).1) :=
  C4_finalize_load_roundtrip
    (IdCatalog.record_namespace
      (IdCatalog.record_enum
        (IdCatalog.record_enum
          (IdCatalog.init [⟨"country", "id", "value", 63, none, none⟩]
            [⟨"scopus_author", "scopus.csv", "sid", "sval"⟩])
          "country" "US")
        "country" "fr")
      "scopus_author" "12345") []
    (by decide) (by decide) (by decide) (by decide) (by decide)

/-- Order on named entries used by Python sorted() over paths that share a
parent directory: code-point comparison of the names. -/
def rFst {α : Type} (a b : String × α) : Prop := strLtB b.1 a.1 = false

instance {α : Type} : DecidableRel (@rFst α) :=
  fun a b => inferInstanceAs (Decidable (strLtB b.1 a.1 = false))

/-- Suffix test on character lists. -/
def hasSuffixCh (cs suf : List Char) : Bool :=
  decide (cs.length ≥ suf.length) && decide (cs.drop (cs.length - suf.length) = suf)

/-- Model of the part-file filter path.suffix == ".gz" (a dot-less or
hidden name never has this suffix in the corpus). -/
def endsGz (s : String) : Bool := hasSuffixCh s.data ['.', 'g', 'z']

/-- A cap check: true when a cap is set and the count has reached it. -/
def capReached (cap : Option Nat) (n : Nat) : Bool :=
  match cap with
  | some m => decide (n ≥ m)
  | none => false

namespace SnapshotReader

/-- Embedding of SnapshotReader._iter_file (json_iter.py lines 89-105):
yield each line, increment the per-file count after the yield, and return
once already_yielded plus the count reaches the record cap. JSON parsing
is external and assumed to succeed, so documents are abstract values. -/
def _iter_file {α : Type} (maxRecords : Option Nat) (alreadyYielded : Nat) :
    List α → Nat → List α
  | [], _ => []
  | doc :: rest, count =>
    doc :: (if capReached maxRecords (alreadyYielded + (count + 1)) then []
      else _iter_file maxRecords alreadyYielded rest (count + 1))

/-- Loop of iter_entity over the ordered part files (json_iter.py lines
74-87). The two nested loops carry no per-directory action, so they are
modelled as one loop over the concatenated sorted file list; files_read
increments at the top of the file loop, yielded grows by the count of the
finished file, and both caps return immediately after a file. -/
def iterFiles {α : Type} (maxFiles maxRecords : Option Nat) :
    List (List α) → Nat → Nat → List α
  | [], _, _ => []
  | f :: rest, yielded, filesRead =>
    _iter_file maxRecords yielded f 0 ++
      (if capReached maxRecords
          (yielded + (_iter_file maxRecords yielded f 0).length) then []
       else if capReached maxFiles (filesRead + 1) then []
       else iterFiles maxFiles maxRecords rest
         (yielded + (_iter_file maxRecords yielded f 0).length) (filesRead + 1))

/-- Part files of a snapshot listing in iteration order: partitions sorted
by directory name, then the .gz files of each partition sorted by file
name (json_iter.py lines 64-79, default all-partitions branch). -/
def sortedFiles {α : Type} (listing : List (String × List (String × List α))) :
    List (List α) :=
  ((List.insertionSort rFst listing).map
    (fun d => (List.insertionSort rFst (d.2.filter (fun f => endsGz f.1))).map
      Prod.snd)).flatten

/-- Embedding of SnapshotReader.iter_entity (json_iter.py lines 53-87) for
the default partition selection: documents of one entity in partition,
file, line order under the two caps. -/
def iter_entity {α : Type} (listing : List (String × List (String × List α)))
    (maxFiles maxRecords : Option Nat) : List α :=
  iterFiles maxFiles maxRecords (sortedFiles listing) 0 0

end SnapshotReader

/-- Below a strict record cap, one file yields a prefix of its lines. -/
theorem iter_file_take {α : Type} (m : Nat) :
    ∀ (docs : List α) (y count : Nat), y + count < m →
    SnapshotReader._iter_file (some m) y docs count = docs.take (m - (y + count))
  | [], y, count, _ => by
    rw [show SnapshotReader._iter_file (some m) y ([] : List α) count = [] from rfl]
    simp
  | doc :: rest, y, count, h => by
    simp only [SnapshotReader._iter_file]
    by_cases hstop : y + (count + 1) ≥ m
    · rw [if_pos (by simp [capReached]; omega)]
      have : m - (y + count) = 1 := by omega
      rw [this]
      simp
    · rw [if_neg (by simp [capReached]; omega)]
      rw [iter_file_take m rest y (count + 1) (by omega)]
      have h1 : m - (y + count) = (m - (y + (count + 1))) + 1 := by omega
      rw [h1, List.take_succ_cons]

/-- Below the record cap, the file loop yields exactly the next cap-many
documents of the concatenated files. -/
theorem iterFiles_take {α : Type} (m : Nat) :
    ∀ (files : List (List α)) (y fr : Nat), y < m →
    SnapshotReader.iterFiles none (some m) files y fr = files.flatten.take (m - y)
  | [], y, fr, _ => by
    rw [show SnapshotReader.iterFiles none (some m) ([] : List (List α)) y fr = []
      from rfl]
    simp
  | f :: rest, y, fr, h => by
    simp only [SnapshotReader.iterFiles]
    rw [iter_file_take m f y 0 (by omega)]
    simp only [Nat.add_zero, List.flatten_cons]
    rw [List.length_take]
    by_cases hstop : y + min (m - y) f.length ≥ m
    · rw [if_pos (by simp [capReached]; omega)]
      have hlen : m - y ≤ f.length := by omega
      rw [List.take_append_eq_append_take]
      have hz : m - y - f.length = 0 := by omega
      rw [hz]
      simp
    · rw [if_neg (by simp [capReached]; omega)]
      have hflen : f.length < m - y := by omega
      have hmin : min (m - y) f.length = f.length := Nat.min_eq_right (le_of_lt hflen)
      rw [hmin]
      rw [show capReached none (fr + 1) = false from rfl]
      simp only [Bool.false_eq_true, if_false]
      have hfull : f.take (m - y) = f := List.take_of_length_le (le_of_lt hflen)
      rw [hfull]
      rw [iterFiles_take m rest (y + f.length) (fr + 1) (by omega)]
      rw [List.take_append_eq_append_take, hfull]
      congr 2
      omega

/-- C5 amended: for every positive record cap K, iter_entity yields
exactly the first min(K, total) documents in ascending partition order,
lexicographic file order and line order, stopping mid-file when the cap
falls inside a file. (With K = 0 the code still yields the first document
of the first file, see the counterexample.) -/
theorem C5_iter_entity_bounded {α : Type}
    (listing : List (String × List (String × List α))) (K : Nat) (hK : 1 ≤ K) :
    SnapshotReader.iter_entity listing none (some K) =
      (SnapshotReader.sortedFiles listing).flatten.take K ∧
    (SnapshotReader.iter_entity listing none (some K)).length =
      min K (SnapshotReader.sortedFiles listing).flatten.length := by
  have h := iterFiles_take K (SnapshotReader.sortedFiles listing) 0 0 (by omega)
  have h0 : K - 0 = K := by omega
  rw [h0] at h
  constructor
  · exact h
  · show (SnapshotReader.iterFiles none (some K)
      (SnapshotReader.sortedFiles listing) 0 0).length = _
    rw [h, List.length_take]

/-- C5 witness: two partitions listed out of order with three documents
and cap two yield the first two documents in canonical order. -/
theorem C5_iter_entity_bounded_witness :
    SnapshotReader.iter_entity
      [("updated_date=2024-02-01", [("part_000.gz", [(2 : Nat)])]),
       ("updated_date=2024-01-01", [("part_001.gz", [1]), ("part_000.gz", [0])])]
      none (some 2) =
      (SnapshotReader.sortedFiles
        [("updated_date=2024-02-01", [("part_000.gz", [(2 : Nat)])]),
         ("updated_date=2024-01-01", [("part_001.gz", [1]), ("part_000.gz", [0])])]).flatten.take 2 :=
  (C5_iter_entity_bounded
    [("updated_date=2024-02-01", [("part_000.gz", [(2 : Nat)])]),
     ("updated_date=2024-01-01", [("part_001.gz", [1]), ("part_000.gz", [0])])]
    2 (by decide)).1

/-- C5 counterexample: with max_records = 0 and one available document,
iter_entity yields that document anyway, because _iter_file checks the cap
only after a yield; so the yield count is 1, not min(0, total) = 0. -/
theorem C5_cap_zero_counterexample :
    SnapshotReader.iter_entity
      [("updated_date=2024-01-01", [("part_000.gz", [(0 : Nat)])])] none (some 0) =
      [(0 : Nat)] ∧
    min 0 ((SnapshotReader.sortedFiles
      [("updated_date=2024-01-01", [("part_000.gz", [(0 : Nat)])])]).flatten).length = 0 := by
  exact ⟨rfl, rfl⟩

/-- State of reference.EnumerationRegistry: registered configs, the two
cache directions, the default-constructed StableIdGenerator (reference.py
line 29: no assignments, no recorder), and the TableEmitter it owns. -/
structure EnumRegState where
  configs : List (String × EnumerationConfig)
  value_to_id : List (String × List (String × Int))
  id_to_value : List (String × List (Int × String))
  gen : GenState
  emitter : TableEmitterState

/-- Python dict.setdefault on an ordered dict. -/
def setdefault {β : Type} (m : List (String × β)) (k : String) (v : β) :
    List (String × β) :=
  if (assocFind k m).isSome then m else m ++ [(k, v)]

namespace EnumerationRegistry

/-- Embedding of EnumerationRegistry.__init__ (reference.py lines 26-32). -/
def init (em : TableEmitterState) : EnumRegState :=
  { configs := [], value_to_id := [], id_to_value := [],
    gen := ⟨[], false, []⟩, emitter := em }

/-- Normalisation applied at load and lookup time (reference.py lines
81-85): the configured function when present, else strip. -/
def _normalise (cfg : EnumerationConfig) (value : String) : String :=
  match cfg.normalise with
  | some f => f value
  | none => pyStrip value

/-- One csv cell of the registry reference loader, from the DictReader row
dict for the given column. -/
def loadRefCell (delim : Char) (col : String) (fields : List (List Char))
    (line : List Char) : Option (List Char) :=
  pyZipGet col.data (fields.zip (splitCh delim line))

/-- Row loop of EnumerationRegistry._load_reference (reference.py lines
46-62), parameterised by the delimiter the DictReader splits with. A falsy
or non-integer id cell, a falsy value cell and a value that normalises to
empty are skipped; an accepted pair is cached in both directions and the
(id, value) row emitted (a raise from emit propagates; the partial cache
mutation Python would keep on that raise is outside the modelled paths). -/
def loadRefRowsD (delim : Char) (cfg : EnumerationConfig)
    (fields : List (List Char)) :
    EnumRegState → List (List Char) → Except String EnumRegState
  | st, [] => Except.ok st
  | st, line :: rest =>
    if line = [] then loadRefRowsD delim cfg fields st rest
    else
      if pyFalsyCell (loadRefCell delim cfg.id_column fields line) ||
          pyFalsyCell (loadRefCell delim cfg.value_column fields line) then
        loadRefRowsD delim cfg fields st rest
      else
        match pyIntL ((loadRefCell delim cfg.id_column fields line).getD []) with
        | none => loadRefRowsD delim cfg fields st rest
        | some identifier =>
          if _normalise cfg
              (String.mk ((loadRefCell delim cfg.value_column fields line).getD [])) =
              "" then
            loadRefRowsD delim cfg fields st rest
          else
            match TableEmitter.emit st.emitter cfg.table
                [(cfg.id_column, some (PyVal.int identifier)),
                 (cfg.value_column, some (PyVal.str (_normalise cfg (String.mk
                   ((loadRefCell delim cfg.value_column fields line).getD [])))))] with
            | Except.error e => Except.error e
            | Except.ok em =>
              loadRefRowsD delim cfg fields
                { st with
                  value_to_id := pyUpd st.value_to_id cfg.table
                    (pyUpd ((assocFind cfg.table st.value_to_id).getD [])
                      (_normalise cfg (String.mk
                        ((loadRefCell delim cfg.value_column fields line).getD [])))
                      identifier),
                  id_to_value := pyUpd st.id_to_value cfg.table
                    (pyUpd ((assocFind cfg.table st.id_to_value).getD [])
                      identifier
                      (_normalise cfg (String.mk
                        ((loadRefCell delim cfg.value_column fields line).getD [])))),
                  emitter := em }
                rest

/-- Embedding of EnumerationRegistry._load_reference (reference.py lines
41-62). The csv.DictReader is built with NO delimiter argument, so the
file is split at commas unconditionally, whatever the file holds. -/
def _load_reference (st : EnumRegState) (cfg : EnumerationConfig) (f : RefFile) :
    Except String EnumRegState :=
  match f with
  | [] => Except.ok st
  | header :: rows => loadRefRowsD ',' cfg (splitCh ',' header) st rows

/-- Modelled from the spec: the registry reference load as the spec words
it, with the delimiter auto-detected (tab if present in the first 2KB
sample, else comma) as _read_assignments does; stated only to compare with
the implemented _load_reference above. -/
def loadReferenceSpec (st : EnumRegState) (cfg : EnumerationConfig)
    (f : RefFile) : Except String EnumRegState :=
  match f with
  | [] => Except.ok st
  | header :: rows =>
    loadRefRowsD (detectDelim (fileText (header :: rows))) cfg
      (splitCh (detectDelim (fileText (header :: rows))) header) st rows

/-- Embedding of EnumerationRegistry.register (reference.py lines 34-39):
store the config, create both cache directions, and load the reference
file when a truthy filename and a reference directory are configured and
the file exists. -/
def registerBase (st : EnumRegState) (cfg : EnumerationConfig) : EnumRegState :=
  { st with
    configs := pyUpd st.configs cfg.table cfg,
    value_to_id := setdefault st.value_to_id cfg.table [],
    id_to_value := setdefault st.id_to_value cfg.table [] }

/-- Dispatch of register on the reference-file condition (Python truthiness
of the filename and the presence of a reference directory). -/
def register (st : EnumRegState) (cfg : EnumerationConfig)
    (dir? : Option RefDir) : Except String EnumRegState :=
  match cfg.reference_filename, dir? with
  | some fn, some dir =>
    if fn = "" then Except.ok (registerBase st cfg)
    else
      match assocFind fn dir with
      | none => Except.ok (registerBase st cfg)
      | some f => _load_reference (registerBase st cfg) cfg f
  | _, _ => Except.ok (registerBase st cfg)

/-- Embedding of EnumerationRegistry.id_for (reference.py lines 64-79).
None input returns None; an unregistered table raises KeyError; a value
normalising to empty returns None; a cached value returns its ID; on a
cache miss the generator is asked for a fresh ID, after which both caches
are updated and the row emitted. -/
def id_for (st : EnumRegState) (table : String) (raw : Option String) :
    Except String (Option Int × EnumRegState) :=
  match raw with
  | none => Except.ok (none, st)
  | some rv =>
    match assocFind table st.configs with
    | none => Except.error "KeyError: unregistered enumeration table"
    | some cfg =>
      if _normalise cfg rv = "" then Except.ok (none, st)
      else
        match assocFind table st.value_to_id with
        | none => Except.error "KeyError: missing value map for table"
        | some tmap =>
          match assocFind (_normalise cfg rv) tmap with
          | some identifier => Except.ok (some identifier, st)
          | none =>
            match StableIdGenerator.generate st.gen table (_normalise cfg rv)
                cfg.bits with
            | Except.error e => Except.error e
            | Except.ok (identifier, gen2) =>
              match TableEmitter.emit st.emitter cfg.table
                  [(cfg.id_column, some (PyVal.int identifier)),
                   (cfg.value_column, some (PyVal.str (_normalise cfg rv)))] with
              | Except.error e => Except.error e
              | Except.ok em =>
                Except.ok (some identifier,
                  { st with
                    value_to_id := pyUpd st.value_to_id table
                      (pyUpd tmap (_normalise cfg rv) identifier),
                    id_to_value := pyUpd st.id_to_value table
                      (pyUpd ((assocFind table st.id_to_value).getD [])
                        identifier (_normalise cfg rv)),
                    gen := gen2, emitter := em })

end EnumerationRegistry

/-- Enumeration config of the worked examples: table color with columns id
and value, no reference file, default normalisation. -/
def colorCfg : EnumerationConfig :=
  ⟨"color", "id", "value", 63, none, none⟩

/-- Registry state right after registering colorCfg on a fresh registry
with an emitter that has no dedup keys. -/
def colorRegistry : EnumRegState :=
  { configs := [("color", colorCfg)],
    value_to_id := [("color", [])],
    id_to_value := [("color", [])],
    gen := ⟨[], false, []⟩,
    emitter := ⟨[], [], []⟩ }

/-- C1 (code-bug evidence): registering a table on a fresh registry and
asking id_for for a non-empty value missing from the cache raises KeyError
out of the generator instead of minting. EnumerationRegistry builds
StableIdGenerator() with no assignments and no recorder (reference.py line
29), so generate finds no namespace map and raises; the mint-cache-emit
tail of id_for (reference.py lines 75-78) is unreachable, against both the
spec and the visible intent of that code. -/
theorem C1_id_for_cache_miss_raises :
    EnumerationRegistry.register (EnumerationRegistry.init ⟨[], [], []⟩)
        colorCfg none = Except.ok colorRegistry ∧
    EnumerationRegistry.id_for colorRegistry "color" (some "red") =
      Except.error "No assignments available for namespace" :=
  ⟨rfl, rfl⟩

/-- C8 counterexample: a two-line tab-delimited reference file. The
auto-detection (as used by IdCatalog._read_assignments) picks the tab, but
the registry loader splits at commas, sees a single header field and skips
every row: it loads nothing, while the spec-worded auto-detecting loader
reads the pair (red, 1). The delimiter is therefore not auto-detected in
the registry reference load. -/
theorem C8_registry_comma_counterexample :
    detectDelim (fileText [("id\tvalue").data, ("1\tred").data]) = '\t' ∧
    (EnumerationRegistry._load_reference colorRegistry colorCfg
        [("id\tvalue").data, ("1\tred").data]).map (fun s => s.value_to_id) =
      Except.ok [("color", [])] ∧
    (EnumerationRegistry.loadReferenceSpec colorRegistry colorCfg
        [("id\tvalue").data, ("1\tred").data]).map (fun s => s.value_to_id) =
      Except.ok [("color", [("red", 1)])] :=
  ⟨rfl, rfl, rfl⟩

/-- With a single header field that is not the id column name, the
comma-splitting registry row loop skips every row. -/
theorem loadRefRowsD_single_field (cfg : EnumerationConfig) (header : List Char)
    (hne : ¬ header = cfg.id_column.data) :
    ∀ (rows : List (List Char)) (st : EnumRegState),
    EnumerationRegistry.loadRefRowsD ',' cfg [header] st rows = Except.ok st
  | [], st => rfl
  | line :: rest, st => by
    simp only [EnumerationRegistry.loadRefRowsD]
    by_cases hl : line = []
    · rw [if_pos hl]
      exact loadRefRowsD_single_field cfg header hne rest st
    · rw [if_neg hl]
      have hcell : EnumerationRegistry.loadRefCell ',' cfg.id_column [header] line =
          none := by
        unfold EnumerationRegistry.loadRefCell
        cases hc : splitCh ',' line with
        | nil => exact absurd hc (splitCh_ne_nil ',' line)
        | cons c0 crest =>
          show pyZipGet cfg.id_column.data [(header, c0)] = none
          unfold pyZipGet
          show assocFind cfg.id_column.data ([(header, c0)].reverse) = none
          rw [List.reverse_singleton]
          show (if header = cfg.id_column.data then some c0 else none) = none
          rw [if_neg hne]
      rw [hcell]
      rw [show pyFalsyCell none = true from rfl]
      rw [if_pos (by simp)]
      exact loadRefRowsD_single_field cfg header hne rest st

/-- C8 amended: IdCatalog auto-detects on read (the tab written by
_write_records is found in the sample, so a written file reads back
exactly), while the registry reference load always splits at commas: on
the same tab-delimited file it reads nothing, whatever the file holds. -/
theorem C8_delimiter_detection_amended (cfg : EnumerationConfig)
    (st : EnumRegState) (asg : List (String × Int))
    (hcols : cfg.id_column ≠ cfg.value_column)
    (hidt : '\t' ∉ cfg.id_column.data) (hvalt : '\t' ∉ cfg.value_column.data)
    (hidc : ',' ∉ cfg.id_column.data) (hvalc : ',' ∉ cfg.value_column.data)
    (hlen : cfg.id_column.data.length < 2048)
    (hpairs : ∀ p ∈ asg, p.1 ≠ "" ∧ '\t' ∉ p.1.data ∧ 0 ≤ p.2)
    (hnodup : (asg.map Prod.fst).Nodup) :
    read_assignments (write_records cfg.id_column cfg.value_column asg)
      cfg.id_column cfg.value_column = asg ∧
    EnumerationRegistry._load_reference st cfg
      (write_records cfg.id_column cfg.value_column asg) = Except.ok st := by
  constructor
  · exact read_write_records cfg.id_column cfg.value_column hcols hidt hvalt hlen
      asg hpairs hnodup
  · show EnumerationRegistry.loadRefRowsD ',' cfg
      (splitCh ',' (joinCh '\t' [cfg.id_column.data, cfg.value_column.data])) st
      (asg.map (fun p => joinCh '\t' (rowCells cfg.id_column cfg.value_column p.1 p.2)))
      = Except.ok st
    have hheader : joinCh '\t' [cfg.id_column.data, cfg.value_column.data] =
        cfg.id_column.data ++ '\t' :: cfg.value_column.data := rfl
    have hnocomma : ∀ c ∈ cfg.id_column.data ++ '\t' :: cfg.value_column.data,
        c ≠ ',' := by
      intro c hc
      rcases List.mem_append.mp hc with h1 | h2
      · exact fun hx => hidc (hx ▸ h1)
      · rcases List.mem_cons.mp h2 with rfl | h3
        · decide
        · exact fun hx => hvalc (hx ▸ h3)
    have hfields : splitCh ','
        (joinCh '\t' [cfg.id_column.data, cfg.value_column.data]) =
        [cfg.id_column.data ++ '\t' :: cfg.value_column.data] := by
      rw [hheader]
      exact splitCh_no_delim ',' _ hnocomma
    rw [hfields]
    apply loadRefRowsD_single_field
    intro h
    have hlen2 := congrArg List.length h
    simp at hlen2

/-- C8 witness: the amended statement at a concrete config and a one-pair
assignment. -/
theorem C8_delimiter_detection_amended_witness :
    read_assignments (write_records colorCfg.id_column colorCfg.value_column
      [("red", 1)]) colorCfg.id_column colorCfg.value_column = [("red", 1)] ∧
    EnumerationRegistry._load_reference colorRegistry colorCfg
      (write_records colorCfg.id_column colorCfg.value_column [("red", 1)]) =
      Except.ok colorRegistry :=
  C8_delimiter_detection_amended colorCfg colorRegistry [("red", 1)]
    (by decide) (by decide) (by decide) (by decide) (by decide) (by decide)
    (by decide) (by decide)

end OAP
